import Mathlib

/-
Verification of the IRRE toolchain core (irre2): instruction codec,
object-file container, assembler actions / symbol resolution, and the
emulator's fetch-decode-execute step, shallowly embedded from the C++
sources.  Machine words are `Nat` reduced modulo 2^32 exactly where the
C++ 32-bit unsigned arithmetic truncates.
-/

namespace irre

/-- Instruction formats, from `types.hpp` (`enum class format`); the
`invalid` tag appears in `actions.cpp` for unknown-mnemonic handling. -/
inductive Format where
  | op
  | op_reg
  | op_imm24
  | op_reg_imm16
  | op_reg_reg
  | op_reg_reg_imm8
  | op_reg_imm8x2
  | op_reg_reg_reg
  | invalid
deriving DecidableEq, Repr

/-- Opcode-to-format map, from `get_opcode_info` in `types.hpp`.
Opcodes are the raw bytes of `enum class opcode`; unknown bytes fall to
the default entry, whose format is `op`. -/
def getFormat (op : Nat) : Format :=
  match op with
  | 0x00 => .op              -- nop
  | 0x01 => .op_reg_reg_reg  -- add
  | 0x02 => .op_reg_reg_reg  -- sub
  | 0x03 => .op_reg_reg_reg  -- and
  | 0x04 => .op_reg_reg_reg  -- orr
  | 0x05 => .op_reg_reg_reg  -- xor
  | 0x06 => .op_reg_reg      -- not
  | 0x07 => .op_reg_reg_reg  -- lsh
  | 0x08 => .op_reg_reg_reg  -- ash
  | 0x09 => .op_reg_reg_reg  -- tcu
  | 0x0a => .op_reg_reg_reg  -- tcs
  | 0x0b => .op_reg_imm16    -- set
  | 0x0c => .op_reg_reg      -- mov
  | 0x0d => .op_reg_reg_imm8 -- ldw
  | 0x0e => .op_reg_reg_imm8 -- stw
  | 0x0f => .op_reg_reg_imm8 -- ldb
  | 0x10 => .op_reg_reg_imm8 -- stb
  | 0x20 => .op_imm24        -- jmi
  | 0x21 => .op_reg          -- jmp
  | 0x24 => .op_reg_reg_imm8 -- bve
  | 0x25 => .op_reg_reg_imm8 -- bvn
  | 0x2a => .op_reg          -- cal
  | 0x2b => .op              -- ret
  | 0x30 => .op_reg_reg_reg  -- mul
  | 0x31 => .op_reg_reg_reg  -- div
  | 0x32 => .op_reg_reg_reg  -- mod
  | 0x40 => .op_reg_imm8x2   -- sia
  | 0x41 => .op_reg_imm16    -- sup
  | 0x42 => .op_reg_reg      -- sxt
  | 0x43 => .op_reg_reg_imm8 -- seq
  | 0xf0 => .op_imm24        -- int
  | 0xfd => .op_reg_reg_reg  -- snd
  | 0xff => .op              -- hlt
  | _ => .op

/-- Decode errors, from `encoding.hpp` (`enum class decode_error`). -/
inductive DecodeError where
  | invalid_opcode
  | invalid_register
  | malformed_instruction
deriving DecidableEq, Repr

/-- The tagged instruction union, from `instruction.hpp`: one
constructor per format struct; register and immediate fields are the
raw byte/halfword values (uint8/uint16/uint32 in the source). -/
inductive Instruction where
  | inst_op (op : Nat)
  | inst_op_reg (op a : Nat)
  | inst_op_imm24 (op addr : Nat)
  | inst_op_reg_imm16 (op a imm : Nat)
  | inst_op_reg_reg (op a b : Nat)
  | inst_op_reg_reg_imm8 (op a b offset : Nat)
  | inst_op_reg_imm8x2 (op a v0 v1 : Nat)
  | inst_op_reg_reg_reg (op a b c : Nat)
deriving DecidableEq, Repr

/-- Encoding of each format struct, from the `encode` members in
`instruction.hpp`.  Fields occupy disjoint byte lanes (the source ORs
values of type uint8/uint16 shifted into distinct positions), so the
bitwise ORs are written as sums; `inst_op_imm24` masks its address to
24 bits exactly as the source does (`addr & 0xffffff`). -/
def encode : Instruction → Nat
  | .inst_op op => op * 2 ^ 24
  | .inst_op_reg op a => op * 2 ^ 24 + a * 2 ^ 16
  | .inst_op_imm24 op addr => op * 2 ^ 24 + addr % 2 ^ 24
  | .inst_op_reg_imm16 op a imm => op * 2 ^ 24 + a * 2 ^ 16 + imm
  | .inst_op_reg_reg op a b => op * 2 ^ 24 + a * 2 ^ 16 + b * 2 ^ 8
  | .inst_op_reg_reg_imm8 op a b offset => op * 2 ^ 24 + a * 2 ^ 16 + b * 2 ^ 8 + offset
  | .inst_op_reg_imm8x2 op a v0 v1 => op * 2 ^ 24 + a * 2 ^ 16 + v0 * 2 ^ 8 + v1
  | .inst_op_reg_reg_reg op a b c => op * 2 ^ 24 + a * 2 ^ 16 + b * 2 ^ 8 + c

/-- Decoder, from `codec::decode` in `encoding.hpp`: extract the opcode
byte from bits [31:24]; reject format-`op` bytes other than nop/ret/hlt
as `invalid_opcode`; validate every register field of the chosen format
against `reg::sp` (0x24); build the matching variant. -/
def decode (w : Nat) : Except DecodeError Instruction :=
  if getFormat (w / 2 ^ 24 % 256) = .op ∧
      ¬(w / 2 ^ 24 % 256 = 0x00 ∨ w / 2 ^ 24 % 256 = 0x2b ∨ w / 2 ^ 24 % 256 = 0xff) then
    .error .invalid_opcode
  else
    match getFormat (w / 2 ^ 24 % 256) with
    | .op => .ok (.inst_op (w / 2 ^ 24 % 256))
    | .op_reg =>
        if w / 2 ^ 16 % 256 ≤ 0x24 then
          .ok (.inst_op_reg (w / 2 ^ 24 % 256) (w / 2 ^ 16 % 256))
        else .error .invalid_register
    | .op_imm24 => .ok (.inst_op_imm24 (w / 2 ^ 24 % 256) (w % 2 ^ 24))
    | .op_reg_imm16 =>
        if w / 2 ^ 16 % 256 ≤ 0x24 then
          .ok (.inst_op_reg_imm16 (w / 2 ^ 24 % 256) (w / 2 ^ 16 % 256) (w % 2 ^ 16))
        else .error .invalid_register
    | .op_reg_reg =>
        if w / 2 ^ 16 % 256 ≤ 0x24 ∧ w / 2 ^ 8 % 256 ≤ 0x24 then
          .ok (.inst_op_reg_reg (w / 2 ^ 24 % 256) (w / 2 ^ 16 % 256) (w / 2 ^ 8 % 256))
        else .error .invalid_register
    | .op_reg_reg_imm8 =>
        if w / 2 ^ 16 % 256 ≤ 0x24 ∧ w / 2 ^ 8 % 256 ≤ 0x24 then
          .ok (.inst_op_reg_reg_imm8 (w / 2 ^ 24 % 256) (w / 2 ^ 16 % 256) (w / 2 ^ 8 % 256)
            (w % 256))
        else .error .invalid_register
    | .op_reg_imm8x2 =>
        if w / 2 ^ 16 % 256 ≤ 0x24 then
          .ok (.inst_op_reg_imm8x2 (w / 2 ^ 24 % 256) (w / 2 ^ 16 % 256) (w / 2 ^ 8 % 256)
            (w % 256))
        else .error .invalid_register
    | .op_reg_reg_reg =>
        if w / 2 ^ 16 % 256 ≤ 0x24 ∧ w / 2 ^ 8 % 256 ≤ 0x24 ∧ w % 256 ≤ 0x24 then
          .ok (.inst_op_reg_reg_reg (w / 2 ^ 24 % 256) (w / 2 ^ 16 % 256) (w / 2 ^ 8 % 256)
            (w % 256))
        else .error .invalid_register
    | .invalid => .error .invalid_opcode

/-- Constructibility of an instruction value: the variant's tag matches
the opcode's declared format (the invariant stated for the instruction
model), the opcode fits its byte, every register field is a valid
register number 0x00-0x24, and every immediate fits its field width
(uint8/uint16 fields are so typed in the source; the 24-bit address is
constrained to its field width as the claim requires). -/
def Instruction.Wf : Instruction → Prop
  | .inst_op op => op = 0x00 ∨ op = 0x2b ∨ op = 0xff
  | .inst_op_reg op a => getFormat op = .op_reg ∧ op < 256 ∧ a ≤ 0x24
  | .inst_op_imm24 op addr => getFormat op = .op_imm24 ∧ op < 256 ∧ addr < 2 ^ 24
  | .inst_op_reg_imm16 op a imm =>
      getFormat op = .op_reg_imm16 ∧ op < 256 ∧ a ≤ 0x24 ∧ imm < 2 ^ 16
  | .inst_op_reg_reg op a b => getFormat op = .op_reg_reg ∧ op < 256 ∧ a ≤ 0x24 ∧ b ≤ 0x24
  | .inst_op_reg_reg_imm8 op a b offset =>
      getFormat op = .op_reg_reg_imm8 ∧ op < 256 ∧ a ≤ 0x24 ∧ b ≤ 0x24 ∧ offset < 2 ^ 8
  | .inst_op_reg_imm8x2 op a v0 v1 =>
      getFormat op = .op_reg_imm8x2 ∧ op < 256 ∧ a ≤ 0x24 ∧ v0 < 2 ^ 8 ∧ v1 < 2 ^ 8
  | .inst_op_reg_reg_reg op a b c =>
      getFormat op = .op_reg_reg_reg ∧ op < 256 ∧ a ≤ 0x24 ∧ b ≤ 0x24 ∧ c ≤ 0x24

/-- The bit positions a word's format leaves unused: formats `op`,
`op_reg` and `op_reg_reg` ignore the low 24, 16 and 8 bits
respectively; every other format reads all 32 bits. -/
def unusedFieldsZero (w : Nat) : Prop :=
  if getFormat (w / 2 ^ 24 % 256) = .op then w % 2 ^ 24 = 0
  else if getFormat (w / 2 ^ 24 % 256) = .op_reg then w % 2 ^ 16 = 0
  else if getFormat (w / 2 ^ 24 % 256) = .op_reg_reg then w % 2 ^ 8 = 0
  else True

end irre


namespace irre

/-- Helper for C1: decoding inverts encoding on every constructible
instruction. -/
theorem decode_encode_of_wf (i : Instruction) (h : i.Wf) : decode (encode i) = .ok i := by
  cases i with
  | inst_op op =>
      rcases h with h | h | h <;> subst h <;> rfl
  | inst_op_reg op a =>
      obtain ⟨hf, hop, ha⟩ := h
      show decode (op * 2 ^ 24 + a * 2 ^ 16) = .ok (.inst_op_reg op a)
      unfold decode
      rw [show (op * 2 ^ 24 + a * 2 ^ 16) / 2 ^ 24 % 256 = op from by omega,
        show (op * 2 ^ 24 + a * 2 ^ 16) / 2 ^ 16 % 256 = a from by omega, hf]
      simp [ha]
  | inst_op_imm24 op addr =>
      obtain ⟨hf, hop, haddr⟩ := h
      show decode (op * 2 ^ 24 + addr % 2 ^ 24) = .ok (.inst_op_imm24 op addr)
      unfold decode
      rw [show (op * 2 ^ 24 + addr % 2 ^ 24) / 2 ^ 24 % 256 = op from by omega,
        show (op * 2 ^ 24 + addr % 2 ^ 24) % 2 ^ 24 = addr from by omega, hf]
      simp
  | inst_op_reg_imm16 op a imm =>
      obtain ⟨hf, hop, ha, him⟩ := h
      show decode (op * 2 ^ 24 + a * 2 ^ 16 + imm) = .ok (.inst_op_reg_imm16 op a imm)
      unfold decode
      rw [show (op * 2 ^ 24 + a * 2 ^ 16 + imm) / 2 ^ 24 % 256 = op from by omega,
        show (op * 2 ^ 24 + a * 2 ^ 16 + imm) / 2 ^ 16 % 256 = a from by omega,
        show (op * 2 ^ 24 + a * 2 ^ 16 + imm) % 2 ^ 16 = imm from by omega, hf]
      simp [ha]
  | inst_op_reg_reg op a b =>
      obtain ⟨hf, hop, ha, hb⟩ := h
      show decode (op * 2 ^ 24 + a * 2 ^ 16 + b * 2 ^ 8) = .ok (.inst_op_reg_reg op a b)
      unfold decode
      rw [show (op * 2 ^ 24 + a * 2 ^ 16 + b * 2 ^ 8) / 2 ^ 24 % 256 = op from by omega,
        show (op * 2 ^ 24 + a * 2 ^ 16 + b * 2 ^ 8) / 2 ^ 16 % 256 = a from by omega,
        show (op * 2 ^ 24 + a * 2 ^ 16 + b * 2 ^ 8) / 2 ^ 8 % 256 = b from by omega, hf]
      simp [ha, hb]
  | inst_op_reg_reg_imm8 op a b offset =>
      obtain ⟨hf, hop, ha, hb, ho⟩ := h
      show decode (op * 2 ^ 24 + a * 2 ^ 16 + b * 2 ^ 8 + offset) =
        .ok (.inst_op_reg_reg_imm8 op a b offset)
      unfold decode
      rw [show (op * 2 ^ 24 + a * 2 ^ 16 + b * 2 ^ 8 + offset) / 2 ^ 24 % 256 = op from by omega,
        show (op * 2 ^ 24 + a * 2 ^ 16 + b * 2 ^ 8 + offset) / 2 ^ 16 % 256 = a from by omega,
        show (op * 2 ^ 24 + a * 2 ^ 16 + b * 2 ^ 8 + offset) / 2 ^ 8 % 256 = b from by omega,
        show (op * 2 ^ 24 + a * 2 ^ 16 + b * 2 ^ 8 + offset) % 256 = offset from by omega, hf]
      simp [ha, hb]
  | inst_op_reg_imm8x2 op a v0 v1 =>
      obtain ⟨hf, hop, ha, h0, hv⟩ := h
      show decode (op * 2 ^ 24 + a * 2 ^ 16 + v0 * 2 ^ 8 + v1) =
        .ok (.inst_op_reg_imm8x2 op a v0 v1)
      unfold decode
      rw [show (op * 2 ^ 24 + a * 2 ^ 16 + v0 * 2 ^ 8 + v1) / 2 ^ 24 % 256 = op from by omega,
        show (op * 2 ^ 24 + a * 2 ^ 16 + v0 * 2 ^ 8 + v1) / 2 ^ 16 % 256 = a from by omega,
        show (op * 2 ^ 24 + a * 2 ^ 16 + v0 * 2 ^ 8 + v1) / 2 ^ 8 % 256 = v0 from by omega,
        show (op * 2 ^ 24 + a * 2 ^ 16 + v0 * 2 ^ 8 + v1) % 256 = v1 from by omega, hf]
      simp [ha]
  | inst_op_reg_reg_reg op a b c =>
      obtain ⟨hf, hop, ha, hb, hc⟩ := h
      show decode (op * 2 ^ 24 + a * 2 ^ 16 + b * 2 ^ 8 + c) =
        .ok (.inst_op_reg_reg_reg op a b c)
      unfold decode
      rw [show (op * 2 ^ 24 + a * 2 ^ 16 + b * 2 ^ 8 + c) / 2 ^ 24 % 256 = op from by omega,
        show (op * 2 ^ 24 + a * 2 ^ 16 + b * 2 ^ 8 + c) / 2 ^ 16 % 256 = a from by omega,
        show (op * 2 ^ 24 + a * 2 ^ 16 + b * 2 ^ 8 + c) / 2 ^ 8 % 256 = b from by omega,
        show (op * 2 ^ 24 + a * 2 ^ 16 + b * 2 ^ 8 + c) % 256 = c from by omega, hf]
      simp [ha, hb, hc]

/-- Helper for C1: on words whose unused field slots are zero, encoding
inverts decoding. -/
theorem encode_decode_of_unused_zero (w : Nat) (i : Instruction) (hw : w < 2 ^ 32)
    (hdec : decode w = .ok i) (hz : unusedFieldsZero w) : encode i = w := by
  unfold decode at hdec
  unfold unusedFieldsZero at hz
  split at hdec
  · exact absurd hdec (by simp)
  · cases hf : getFormat (w / 2 ^ 24 % 256) <;> rw [hf] at hdec hz <;> simp only at hdec <;>
      simp only [reduceCtorEq, if_true, if_false, reduceIte] at hz
    case op =>
      simp only [Except.ok.injEq] at hdec
      subst hdec
      simp only [encode]
      omega
    case op_reg =>
      split at hdec
      · simp only [Except.ok.injEq] at hdec
        subst hdec
        simp only [encode]
        omega
      · exact absurd hdec (by simp)
    case op_imm24 =>
      simp only [Except.ok.injEq] at hdec
      subst hdec
      simp only [encode]
      omega
    case op_reg_imm16 =>
      split at hdec
      · simp only [Except.ok.injEq] at hdec
        subst hdec
        simp only [encode]
        omega
      · exact absurd hdec (by simp)
    case op_reg_reg =>
      split at hdec
      · simp only [Except.ok.injEq] at hdec
        subst hdec
        simp only [encode]
        omega
      · exact absurd hdec (by simp)
    case op_reg_reg_imm8 =>
      split at hdec
      · simp only [Except.ok.injEq] at hdec
        subst hdec
        simp only [encode]
        omega
      · exact absurd hdec (by simp)
    case op_reg_imm8x2 =>
      split at hdec
      · simp only [Except.ok.injEq] at hdec
        subst hdec
        simp only [encode]
        omega
      · exact absurd hdec (by simp)
    case op_reg_reg_reg =>
      split at hdec
      · simp only [Except.ok.injEq] at hdec
        subst hdec
        simp only [encode]
        omega
      · exact absurd hdec (by simp)
    case invalid => exact absurd hdec (by simp)

end irre

namespace irre

/-- C1 (amended): for every constructible instruction (register fields
in 0x00-0x24, immediates within their field widths, variant matching the
opcode's format), `decode (encode i) = ok i`; and for every 32-bit word
`w` on which decode succeeds AND whose unused field slots are zero,
`encode (decode w) = w`.  The unrestricted second half of the original
claim is false: decode ignores unused slots, so their content is lost. -/
theorem codec_round_trip :
    (∀ i : Instruction, i.Wf → decode (encode i) = .ok i) ∧
    (∀ (w : Nat) (i : Instruction), w < 2 ^ 32 → decode w = .ok i → unusedFieldsZero w →
      encode i = w) :=
  ⟨decode_encode_of_wf, encode_decode_of_unused_zero⟩

/-- C1 witness: the amended round trip evaluated at `jmp r3`
(0x21030000) and at the word 0 (`nop` with clear unused slots). -/
theorem codec_round_trip_witness :
    decode (encode (.inst_op_reg 0x21 0x03)) = .ok (.inst_op_reg 0x21 0x03) ∧
    encode (Instruction.inst_op 0x00) = 0 :=
  ⟨codec_round_trip.1 (.inst_op_reg 0x21 0x03) ⟨rfl, by omega, by omega⟩,
   codec_round_trip.2 0 (.inst_op 0x00) (by omega) rfl (by unfold unusedFieldsZero; simp)⟩

/-- C1 counterexample: the word 0x00000001 decodes successfully (as
`nop`, an op-format word with a nonzero unused low slot), but
re-encoding the decoded instruction yields 0, not 1 - refuting
`encode (decode w) = w` for words with nonzero unused field slots. -/
theorem codec_round_trip_counterexample :
    decode 1 = .ok (.inst_op 0x00) ∧ encode (Instruction.inst_op 0x00) ≠ 1 :=
  ⟨rfl, by decide⟩

end irre

namespace irre

namespace assembler

/-- Object file, from `object.hpp`: entry offset (uint32) plus code and
data byte vectors; version is the constant 1. -/
structure object_file where
  entry_offset : Nat
  code : List Nat
  data : List Nat
deriving DecidableEq, Repr

/-- Modelled from the spec: `byte_io::write_u16_le` is used by
`object.cpp` but its definition is not among the provided sources; the
spec fixes all header fields as little-endian. -/
def write_u16_le (v : Nat) : List Nat := [v % 256, v / 2 ^ 8 % 256]

/-- Modelled from the spec: `byte_io::write_u32_le`, little-endian
(spec, object-file layout). -/
def write_u32_le (v : Nat) : List Nat :=
  [v % 256, v / 2 ^ 8 % 256, v / 2 ^ 16 % 256, v / 2 ^ 24 % 256]

/-- Modelled from the spec: `byte_io::write_magic` emits the four magic
bytes 'R' 'G' 'V' 'M'. -/
def write_magic : List Nat := [0x52, 0x47, 0x56, 0x4d]

/-- Modelled from the spec: `byte_io::read_u16_le` composes two bytes
little-endian. -/
def read_u16_le (l : List Nat) (off : Nat) : Nat :=
  l.getD off 0 + l.getD (off + 1) 0 * 2 ^ 8

/-- Modelled from the spec: `byte_io::read_u32_le` composes four bytes
little-endian. -/
def read_u32_le (l : List Nat) (off : Nat) : Nat :=
  l.getD off 0 + l.getD (off + 1) 0 * 2 ^ 8 + l.getD (off + 2) 0 * 2 ^ 16 +
    l.getD (off + 3) 0 * 2 ^ 24

/-- Modelled from the spec: `byte_io::check_magic` compares the first
four bytes against 'R' 'G' 'V' 'M'. -/
def check_magic (l : List Nat) : Bool :=
  l.getD 0 0 = 0x52 ∧ l.getD 1 0 = 0x47 ∧ l.getD 2 0 = 0x56 ∧ l.getD 3 0 = 0x4d

/-- Serializer, from `object_file::to_binary` in `object.cpp`: magic,
version, reserved, entry offset, code size, data size, reserved (all
little-endian), then the code bytes, then the data bytes.  The section
sizes pass through `static_cast<uint32_t>`, hence the mod 2^32. -/
def object_file.to_binary (o : object_file) : List Nat :=
  write_magic ++ write_u16_le 1 ++ write_u16_le 0 ++ write_u32_le o.entry_offset ++
    write_u32_le (o.code.length % 2 ^ 32) ++ write_u32_le (o.data.length % 2 ^ 32) ++
    write_u32_le 0 ++ o.code ++ o.data

/-- Parser, from `object_file::from_binary` in `object.cpp`, with its
checks in source order.  The source formats diagnostic numbers into its
error strings; the model keeps fixed descriptive messages since no claim
depends on the formatted digits. -/
def object_file.from_binary (binary : List Nat) : Except String object_file :=
  if binary.length = 0 then .error "error: empty file"
  else if binary.length < 24 then .error "error: file too small"
  else if ¬check_magic binary then .error "error: invalid magic bytes"
  else if read_u16_le binary 4 ≠ 1 then .error "error: unsupported version"
  else if read_u32_le binary 12 > 0x1000000 then .error "error: code section too large"
  else if read_u32_le binary 16 > 0x1000000 then .error "error: data section too large"
  else if binary.length ≠ 24 + read_u32_le binary 12 + read_u32_le binary 16 then
    .error "error: file size mismatch"
  else if read_u32_le binary 12 > 0 ∧ read_u32_le binary 8 ≥ read_u32_le binary 12 then
    .error "error: entry point outside code section"
  else if read_u32_le binary 8 % 4 ≠ 0 then .error "error: entry point not aligned"
  else
    .ok
      { entry_offset := read_u32_le binary 8,
        code := (binary.drop 24).take (read_u32_le binary 12),
        data := (binary.drop (24 + read_u32_le binary 12)).take (read_u32_le binary 16) }

end assembler

end irre

namespace irre

namespace assembler

set_option maxRecDepth 8000 in
set_option maxHeartbeats 1000000 in
/-- Shared helper for C4 and C9: parsing the serialized form of an
object file with in-range sections and an aligned 32-bit entry offset
reduces to the single entry-offset-inside-code check. -/
theorem from_binary_to_binary_eq (o : object_file)
    (hc : o.code.length ≤ 0x1000000) (hd : o.data.length ≤ 0x1000000)
    (he : o.entry_offset < 2 ^ 32) (hal : o.entry_offset % 4 = 0) :
    object_file.from_binary o.to_binary =
      if 0 < o.code.length ∧ o.entry_offset ≥ o.code.length then
        .error "error: entry point outside code section"
      else .ok o := by
  obtain ⟨e, code, data⟩ := o
  simp only at hc hd he hal ⊢
  have hlen : (object_file.to_binary ⟨e, code, data⟩).length = 24 + code.length + data.length := by
    simp [object_file.to_binary, write_magic, write_u16_le, write_u32_le]
    omega
  have hmagic : check_magic (object_file.to_binary ⟨e, code, data⟩) = true := rfl
  have h4 : read_u16_le (object_file.to_binary ⟨e, code, data⟩) 4 = 1 := rfl
  have h8 : read_u32_le (object_file.to_binary ⟨e, code, data⟩) 8 = e := by
    rw [show read_u32_le (object_file.to_binary ⟨e, code, data⟩) 8 =
      e % 256 + e / 2 ^ 8 % 256 * 2 ^ 8 + e / 2 ^ 16 % 256 * 2 ^ 16 +
        e / 2 ^ 24 % 256 * 2 ^ 24 from rfl]
    omega
  have h12 : read_u32_le (object_file.to_binary ⟨e, code, data⟩) 12 = code.length := by
    rw [show read_u32_le (object_file.to_binary ⟨e, code, data⟩) 12 =
      code.length % 2 ^ 32 % 256 + code.length % 2 ^ 32 / 2 ^ 8 % 256 * 2 ^ 8 +
        code.length % 2 ^ 32 / 2 ^ 16 % 256 * 2 ^ 16 +
        code.length % 2 ^ 32 / 2 ^ 24 % 256 * 2 ^ 24 from rfl]
    omega
  have h16 : read_u32_le (object_file.to_binary ⟨e, code, data⟩) 16 = data.length := by
    rw [show read_u32_le (object_file.to_binary ⟨e, code, data⟩) 16 =
      data.length % 2 ^ 32 % 256 + data.length % 2 ^ 32 / 2 ^ 8 % 256 * 2 ^ 8 +
        data.length % 2 ^ 32 / 2 ^ 16 % 256 * 2 ^ 16 +
        data.length % 2 ^ 32 / 2 ^ 24 % 256 * 2 ^ 24 from rfl]
    omega
  have hdrop : (object_file.to_binary ⟨e, code, data⟩).drop 24 = code ++ data := rfl
  unfold object_file.from_binary
  rw [hlen, hmagic, h4, h8, h12, h16]
  rw [if_neg (show ¬(24 + code.length + data.length = 0) by omega)]
  rw [if_neg (show ¬(24 + code.length + data.length < 24) by omega)]
  rw [if_neg (show ¬¬(true = true) by simp)]
  rw [if_neg (show ¬((1 : Nat) ≠ 1) by simp)]
  rw [if_neg (show ¬(code.length > 0x1000000) by omega)]
  rw [if_neg (show ¬(data.length > 0x1000000) by omega)]
  rw [if_neg (show ¬(24 + code.length + data.length ≠ 24 + code.length + data.length) by simp)]
  have hsplit : (object_file.to_binary ⟨e, code, data⟩).drop (24 + code.length) =
      (code ++ data).drop code.length := by
    rw [← hdrop, List.drop_drop]
  rw [hsplit, List.drop_left, hdrop, List.take_left, List.take_length]
  split
  · rfl
  · rw [if_neg (show ¬(e % 4 ≠ 0) by omega)]

/-- C4: for every object file whose sections are each at most 16 MiB and
whose (32-bit) entry offset is 4-byte aligned and inside the code
section whenever the code section is non-empty,
`from_binary (to_binary o) = ok o`. -/
theorem object_file_round_trip (o : object_file)
    (hc : o.code.length ≤ 0x1000000) (hd : o.data.length ≤ 0x1000000)
    (he : o.entry_offset < 2 ^ 32) (hal : o.entry_offset % 4 = 0)
    (hin : o.code ≠ [] → o.entry_offset < o.code.length) :
    object_file.from_binary o.to_binary = .ok o := by
  rw [from_binary_to_binary_eq o hc hd he hal]
  rw [if_neg]
  intro ⟨h1, h2⟩
  have := hin (by intro hnil; rw [hnil] at h1; simp at h1)
  omega

/-- C9 (amended): on an otherwise-valid image, `from_binary` accepts
exactly the entry offsets strictly below the code size (any aligned
offset when the code section is empty); an entry offset equal to a
non-empty code section's size is rejected, not accepted. -/
theorem entry_offset_boundary (o : object_file)
    (hc : o.code.length ≤ 0x1000000) (hd : o.data.length ≤ 0x1000000)
    (he : o.entry_offset < 2 ^ 32) (hal : o.entry_offset % 4 = 0) :
    (object_file.from_binary o.to_binary).isOk = true ↔
      (o.code = [] ∨ o.entry_offset < o.code.length) := by
  rw [from_binary_to_binary_eq o hc hd he hal]
  by_cases hcase : 0 < o.code.length ∧ o.entry_offset ≥ o.code.length
  · rw [if_pos hcase]
    simp only [Except.isOk, Except.toBool, Bool.false_eq_true, false_iff]
    intro h
    rcases h with h | h
    · rw [h] at hcase
      simp at hcase
    · omega
  · rw [if_neg hcase]
    simp only [Except.isOk, Except.toBool, true_iff]
    push_neg at hcase
    rcases Nat.eq_zero_or_pos o.code.length with h0 | hpos
    · exact Or.inl (List.length_eq_zero.mp h0)
    · exact Or.inr (hcase hpos)

/-- C9 counterexample: a valid image with a four-byte code section and
entry offset 4 (equal to the code size, 4-byte aligned) is rejected by
`from_binary` with the outside-code-section error, where the claim says
it must be accepted. -/
theorem entry_offset_boundary_counterexample :
    object_file.from_binary (object_file.to_binary ⟨4, [0, 0, 0, 0], []⟩) =
      .error "error: entry point outside code section" := rfl

/-- C4 witness: the round trip evaluated on a concrete object file with
a one-instruction code section, two data bytes, and entry offset 0. -/
theorem object_file_round_trip_witness :
    object_file.from_binary (object_file.to_binary ⟨0, [0xff, 0, 0, 0], [1, 2]⟩) =
      .ok ⟨0, [0xff, 0, 0, 0], [1, 2]⟩ :=
  object_file_round_trip ⟨0, [0xff, 0, 0, 0], [1, 2]⟩ (by decide) (by decide) (by decide)
    (by decide) (fun _ => by decide)

/-- C9 witness: the amended acceptance characterization evaluated at a
concrete image whose entry offset 0 lies inside its four-byte code
section. -/
theorem entry_offset_boundary_witness :
    (object_file.from_binary (object_file.to_binary ⟨0, [0xff, 0, 0, 0], []⟩)).isOk = true :=
  (entry_offset_boundary ⟨0, [0xff, 0, 0, 0], []⟩ (by decide) (by decide) (by decide)
    (by decide)).mpr (Or.inr (by decide))

end assembler

end irre

namespace irre

namespace assembler

/-- Source location, from `object.hpp` (line/column, default 0/0). -/
structure source_location where
  line : Nat
  column : Nat
deriving DecidableEq, Repr

/-- Label definition item, from `object.hpp`. -/
structure label_def where
  name : String
  location : source_location
deriving DecidableEq, Repr

/-- Operand of an unresolved instruction, from `object.hpp`:
`std::variant<reg, uint32_t, std::string>`. -/
inductive operand where
  | register (r : Nat)
  | imm (v : Nat)
  | label (name : String)
deriving DecidableEq, Repr

/-- Unresolved instruction item, from `object.hpp`. -/
structure unresolved_instruction where
  op : Nat
  operands : List operand
  location : source_location
deriving DecidableEq, Repr

/-- Data block item, from `object.hpp`. -/
structure data_block where
  bytes : List Nat
  location : source_location
deriving DecidableEq, Repr

/-- Assembly item, from `object.hpp`: concrete instruction, unresolved
instruction, label, or data block. -/
inductive asm_item where
  | instr (i : Instruction)
  | unresolved (u : unresolved_instruction)
  | label (l : label_def)
  | data (d : data_block)
deriving DecidableEq, Repr

/-- Validation error kinds, from `actions.hpp`. -/
inductive validation_error where
  | unknown_instruction
  | unknown_register
  | invalid_immediate
  | operand_count_mismatch
  | operand_type_mismatch
  | immediate_out_of_range
deriving DecidableEq, Repr

/-- Validation result, from `actions.hpp` (`success` flag plus error
kind and message; `ok()` carries the `unknown_instruction` kind). -/
structure validation_result where
  success : Bool
  error : validation_error
  message : String
deriving DecidableEq, Repr

def validation_result.ok : validation_result := ⟨true, .unknown_instruction, ""⟩

def validation_result.fail (e : validation_error) (m : String) : validation_result := ⟨false, e, m⟩

/-- Parse state threaded through the grammar actions, from
`actions.hpp`. -/
structure parse_state where
  items : List asm_item
  entry_point : String
  current_section : String
  errors : List validation_result
deriving DecidableEq, Repr

def parse_state.initial : parse_state := ⟨[], "", "code", []⟩

def parse_state.emit_concrete_instruction (s : parse_state) (i : Instruction) : parse_state :=
  { s with items := s.items ++ [.instr i] }

def parse_state.emit_unresolved_instruction (s : parse_state) (op : Nat)
    (operands : List operand) : parse_state :=
  { s with items := s.items ++ [.unresolved ⟨op, operands, ⟨0, 0⟩⟩] }

def parse_state.emit_data (s : parse_state) (d : List Nat) : parse_state :=
  { s with items := s.items ++ [.data ⟨d, ⟨0, 0⟩⟩] }

/-- Register-name table, from `parse_register` in `actions.cpp`;
returns the register number (the `reg` enum's byte value). -/
def parse_register (s : String) : Option Nat :=
  match s with
  | "r0" => some 0x00 | "r1" => some 0x01 | "r2" => some 0x02 | "r3" => some 0x03
  | "r4" => some 0x04 | "r5" => some 0x05 | "r6" => some 0x06 | "r7" => some 0x07
  | "r8" => some 0x08 | "r9" => some 0x09 | "r10" => some 0x0a | "r11" => some 0x0b
  | "r12" => some 0x0c | "r13" => some 0x0d | "r14" => some 0x0e | "r15" => some 0x0f
  | "r16" => some 0x10 | "r17" => some 0x11 | "r18" => some 0x12 | "r19" => some 0x13
  | "r20" => some 0x14 | "r21" => some 0x15 | "r22" => some 0x16 | "r23" => some 0x17
  | "r24" => some 0x18 | "r25" => some 0x19 | "r26" => some 0x1a | "r27" => some 0x1b
  | "r28" => some 0x1c | "r29" => some 0x1d | "r30" => some 0x1e | "r31" => some 0x1f
  | "pc" => some 0x20 | "lr" => some 0x21 | "ad" => some 0x22 | "at" => some 0x23
  | "sp" => some 0x24
  | _ => none

/-- Mnemonic table, from `parse_mnemonic` in `actions.cpp`; returns the
opcode byte. -/
def parse_mnemonic (s : String) : Option Nat :=
  match s with
  | "nop" => some 0x00 | "add" => some 0x01 | "sub" => some 0x02 | "and" => some 0x03
  | "orr" => some 0x04 | "xor" => some 0x05 | "not" => some 0x06 | "lsh" => some 0x07
  | "ash" => some 0x08 | "tcu" => some 0x09 | "tcs" => some 0x0a | "set" => some 0x0b
  | "mov" => some 0x0c | "ldw" => some 0x0d | "stw" => some 0x0e | "ldb" => some 0x0f
  | "stb" => some 0x10 | "jmi" => some 0x20 | "jmp" => some 0x21 | "bve" => some 0x24
  | "bvn" => some 0x25 | "cal" => some 0x2a | "ret" => some 0x2b | "mul" => some 0x30
  | "div" => some 0x31 | "mod" => some 0x32 | "sia" => some 0x40 | "sup" => some 0x41
  | "sxt" => some 0x42 | "seq" => some 0x43 | "int" => some 0xf0 | "snd" => some 0xfd
  | "hlt" => some 0xff
  | _ => none

/-- Exceptions `std::stoul` can throw (caught in `parse_immediate`). -/
inductive stoul_exn where
  | invalid_argument
  | out_of_range
deriving DecidableEq, Repr

def hexDigitVal (c : Char) : Option Nat :=
  if '0' ≤ c ∧ c ≤ '9' then some (c.toNat - 48)
  else if 'a' ≤ c ∧ c ≤ 'f' then some (c.toNat - 87)
  else if 'A' ≤ c ∧ c ≤ 'F' then some (c.toNat - 55)
  else none

def decDigitVal (c : Char) : Option Nat :=
  if '0' ≤ c ∧ c ≤ '9' then some (c.toNat - 48) else none

def stoulDigits (digVal : Char → Option Nat) (base : Nat) : List Char → Nat → Nat
  | [], acc => acc
  | c :: cs, acc =>
      match digVal c with
      | some d => stoulDigits digVal base cs (acc * base + d)
      | none => acc

/-- Model of `std::stoul` on a sign-free token: parses the longest
digit prefix; throws `invalid_argument` when the first character is not
a digit, `out_of_range` when the value exceeds `unsigned long`
(64 bits). -/
def stoulModel (digVal : Char → Option Nat) (base : Nat) (cs : List Char) : Except stoul_exn Nat :=
  match cs with
  | [] => .error .invalid_argument
  | c :: _ =>
      match digVal c with
      | none => .error .invalid_argument
      | some _ =>
          let v := stoulDigits digVal base cs 0
          if v ≥ 2 ^ 64 then .error .out_of_range else .ok v

def stoulCatch (s : String) : Except stoul_exn Nat → Except String Nat
  | .ok v => .ok v
  | .error .invalid_argument => .error ("invalid number format: " ++ s)
  | .error .out_of_range => .error ("number out of range: " ++ s)

/-- Immediate parser, from `parse_immediate` in `actions.cpp`: `$` hex
and `#` decimal with optional `-`, else bare decimal; the parsed value
is truncated to uint32 and negatives are mapped through
`-static_cast<int32_t>` (two's complement in a 32-bit carrier). -/
def parse_immediate (s : String) : Except String Nat :=
  match s.data with
  | [] => .error "empty immediate value"
  | '$' :: rest =>
      match rest with
      | [] => .error "missing hex digits after $"
      | '-' :: rest2 =>
          if rest2 = [] then .error "missing hex digits after $-"
          else
            (stoulCatch s (stoulModel hexDigitVal 16 rest2)).map
              (fun v => (2 ^ 32 - v % 2 ^ 32) % 2 ^ 32)
      | _ => (stoulCatch s (stoulModel hexDigitVal 16 rest)).map (fun v => v % 2 ^ 32)
  | '#' :: rest =>
      match rest with
      | [] => .error "missing decimal digits after #"
      | '-' :: rest2 =>
          if rest2 = [] then .error "missing decimal digits after #-"
          else
            (stoulCatch s (stoulModel decDigitVal 10 rest2)).map
              (fun v => (2 ^ 32 - v % 2 ^ 32) % 2 ^ 32)
      | _ => (stoulCatch s (stoulModel decDigitVal 10 rest)).map (fun v => v % 2 ^ 32)
  | cs => (stoulCatch s (stoulModel decDigitVal 10 cs)).map (fun v => v % 2 ^ 32)

/-- From `is_immediate` in `actions.cpp`: first character is `#`, `$`
or a digit. -/
def is_immediate (s : String) : Bool :=
  match s.data with
  | [] => false
  | c :: _ => c = '#' || c = '$' || c.isDigit

/-- From `is_pseudo_instruction` in `actions.cpp`. -/
def is_pseudo_instruction (s : String) : Bool := s = "adi" || s = "sbi"

/-- From `expand_pseudo_instruction` in `actions.cpp`: `adi`/`sbi`
expand to a `set at` followed by `add`/`sub` through `at`. -/
def expand_pseudo_instruction (mnemonic : String) (operands : List String) :
    List (List String) :=
  if mnemonic = "adi" then
    match operands with
    | [a, b, imm] => [["set", "at", imm], ["add", a, b, "at"]]
    | _ => []
  else if mnemonic = "sbi" then
    match operands with
    | [a, b, imm] => [["set", "at", imm], ["sub", a, b, "at"]]
    | _ => []
  else []

/-- Immediate range check, from `validate_immediate_range` in
`actions.cpp`: accept when the value fits unsigned in `bits` bits, or
represents a negative of `bits` bits in a 32-bit two's-complement
carrier (`value >= UINT32_MAX - ((1u << (bits-1)) - 1)`).  The source
formats the signed value and bounds into the message. -/
def validate_immediate_range (value : Nat) (bits : Nat) : validation_result :=
  if value ≤ 2 ^ bits - 1 then .ok
  else if value ≥ (2 ^ 32 - 1) - (2 ^ (bits - 1) - 1) then .ok
  else .fail .immediate_out_of_range "immediate value exceeds bit range"

end assembler

end irre

namespace irre

namespace assembler

/-- Operand shape check, from `validate_instruction_operands` in
`actions.cpp`: per-format operand count and type checks, with immediate
range checks at the field width.  The op_reg shape accepts a register
OR an immediate. -/
def validate_instruction_operands (op : Nat) (operands : List String) : validation_result :=
  match getFormat op with
  | .op =>
      match operands with
      | [] => .ok
      | _ => .fail .operand_count_mismatch "expects 0 operands"
  | .op_reg =>
      match operands with
      | [o1] =>
          if (parse_register o1).isNone ∧ ¬is_immediate o1 then
            .fail .operand_type_mismatch "expects register operand"
          else .ok
      | _ => .fail .operand_count_mismatch "expects 1 operand"
  | .op_imm24 =>
      match operands with
      | [o1] =>
          if is_immediate o1 then
            match parse_immediate o1 with
            | .error e => .fail .invalid_immediate e
            | .ok v =>
                let rc := validate_immediate_range v 24
                if ¬rc.success then rc else .ok
          else .ok
      | _ => .fail .operand_count_mismatch "expects 1 operand"
  | .op_reg_imm16 =>
      match operands with
      | [o1, o2] =>
          if (parse_register o1).isNone then
            .fail .operand_type_mismatch "first operand must be register"
          else if is_immediate o2 then
            match parse_immediate o2 with
            | .error e => .fail .invalid_immediate e
            | .ok v =>
                let rc := validate_immediate_range v 16
                if ¬rc.success then rc else .ok
          else .ok
      | _ => .fail .operand_count_mismatch "expects 2 operands"
  | .op_reg_reg =>
      match operands with
      | [o1, o2] =>
          if (parse_register o1).isNone then
            .fail .operand_type_mismatch "first operand must be register"
          else if (parse_register o2).isNone then
            .fail .operand_type_mismatch "second operand must be register"
          else .ok
      | _ => .fail .operand_count_mismatch "expects 2 operands"
  | .op_reg_reg_imm8 =>
      match operands with
      | [o1, o2, o3] =>
          if (parse_register o1).isNone then
            .fail .operand_type_mismatch "first operand must be register"
          else if (parse_register o2).isNone then
            .fail .operand_type_mismatch "second operand must be register"
          else if is_immediate o3 then
            match parse_immediate o3 with
            | .error e => .fail .invalid_immediate e
            | .ok v =>
                let rc := validate_immediate_range v 8
                if ¬rc.success then rc else .ok
          else .ok
      | _ => .fail .operand_count_mismatch "expects 3 operands"
  | .op_reg_imm8x2 =>
      match operands with
      | [o1, o2, o3] =>
          if (parse_register o1).isNone then
            .fail .operand_type_mismatch "first operand must be register"
          else
            let check := fun (o : String) (k : Unit → validation_result) =>
              if is_immediate o then
                match parse_immediate o with
                | .error e => .fail .invalid_immediate e
                | .ok v =>
                    let rc := validate_immediate_range v 8
                    if ¬rc.success then rc else k ()
              else k ()
            check o2 (fun _ => check o3 (fun _ => .ok))
      | _ => .fail .operand_count_mismatch "expects 3 operands"
  | .op_reg_reg_reg =>
      match operands with
      | [o1, o2, o3] =>
          if (parse_register o1).isNone ∨ (parse_register o2).isNone ∨
              (parse_register o3).isNone then
            .fail .operand_type_mismatch "all operands must be registers"
          else .ok
      | _ => .fail .operand_count_mismatch "expects 3 operands"
  | .invalid => .fail .unknown_instruction "invalid opcode"

/-- Models `std::get<reg>` on a parsed operand: `none` is a thrown
`std::bad_variant_access`. -/
def operand.get_reg : operand → Option Nat
  | .register r => some r
  | _ => none

/-- Models `std::get<uint32_t>` on a parsed operand. -/
def operand.get_u32 : operand → Option Nat
  | .imm v => some v
  | _ => none

/-- Concrete-instruction builder inside `process_single_instruction`
(`actions.cpp`): per format, destructure operands with `std::get`;
`.error ()` models the thrown `std::bad_variant_access` (caught by the
caller, which falls back to an unresolved item); `.ok none` models the
source's silent fall-through when an operand count fails its re-check.
Numeric operands are narrowed to their field widths by the
`static_cast`s. -/
def build_concrete (op : Nat) (operands : List operand) : Except Unit (Option asm_item) :=
  match getFormat op with
  | .op =>
      match operands with
      | [] => .ok (some (.instr (.inst_op op)))
      | _ => .ok none
  | .op_reg =>
      match operands with
      | [o1] =>
          match o1.get_reg with
          | none => .error ()
          | some r => .ok (some (.instr (.inst_op_reg op r)))
      | _ => .ok none
  | .op_imm24 =>
      match operands with
      | [o1] =>
          match o1.get_u32 with
          | none => .error ()
          | some v => .ok (some (.instr (.inst_op_imm24 op v)))
      | _ => .ok none
  | .op_reg_imm16 =>
      match operands with
      | [o1, o2] =>
          match o1.get_reg, o2.get_u32 with
          | some r, some v => .ok (some (.instr (.inst_op_reg_imm16 op r (v % 2 ^ 16))))
          | _, _ => .error ()
      | _ => .ok none
  | .op_reg_reg =>
      match operands with
      | [o1, o2] =>
          match o1.get_reg, o2.get_reg with
          | some r1, some r2 => .ok (some (.instr (.inst_op_reg_reg op r1 r2)))
          | _, _ => .error ()
      | _ => .ok none
  | .op_reg_reg_imm8 =>
      match operands with
      | [o1, o2, o3] =>
          match o1.get_reg, o2.get_reg, o3.get_u32 with
          | some r1, some r2, some v =>
              .ok (some (.instr (.inst_op_reg_reg_imm8 op r1 r2 (v % 2 ^ 8))))
          | _, _, _ => .error ()
      | _ => .ok none
  | .op_reg_imm8x2 =>
      match operands with
      | [o1, o2, o3] =>
          match o1.get_reg, o2.get_u32, o3.get_u32 with
          | some r, some v1, some v2 =>
              .ok (some (.instr (.inst_op_reg_imm8x2 op r (v1 % 2 ^ 8) (v2 % 2 ^ 8))))
          | _, _, _ => .error ()
      | _ => .ok none
  | .op_reg_reg_reg =>
      match operands with
      | [o1, o2, o3] =>
          match o1.get_reg, o2.get_reg, o3.get_reg with
          | some r1, some r2, some r3 => .ok (some (.instr (.inst_op_reg_reg_reg op r1 r2 r3)))
          | _, _, _ => .error ()
      | _ => .ok none
  | .invalid => .ok none

/-- Operand-string conversion loop inside `process_single_instruction`:
register names become register operands, immediate-looking tokens are
parsed (a parse failure is an `invalid_immediate` result), everything
else is a label reference.  Returns the operand list and whether any
label was seen. -/
def convert_operands : List String → Except String (List operand × Bool)
  | [] => .ok ([], false)
  | s :: rest =>
      match parse_register s with
      | some r => (convert_operands rest).map (fun (l, b) => (.register r :: l, b))
      | none =>
          if is_immediate s then
            match parse_immediate s with
            | .error e => .error e
            | .ok v => (convert_operands rest).map (fun (l, b) => (.imm v :: l, b))
          else (convert_operands rest).map (fun (l, _) => (.label s :: l, true))

/-- From `process_single_instruction` in `actions.cpp`: look up the
mnemonic, shape-check the operands, convert them, and emit a concrete
instruction when no label occurs (falling back to an unresolved item
when `std::get` throws), else an unresolved instruction.  Returns the
validation result together with the updated parse state. -/
def process_single_instruction (s : parse_state) (mnemonic : String)
    (operand_strs : List String) : validation_result × parse_state :=
  match parse_mnemonic mnemonic with
  | none => (.fail .unknown_instruction ("unknown instruction: " ++ mnemonic), s)
  | some op =>
      let validation := validate_instruction_operands op operand_strs
      if ¬validation.success then (validation, s)
      else
        match convert_operands operand_strs with
        | .error e => (.fail .invalid_immediate e, s)
        | .ok (operands, has_labels) =>
            if ¬has_labels then
              match build_concrete op operands with
              | .ok (some item) => (.ok, { s with items := s.items ++ [item] })
              | .ok none => (.ok, s)
              | .error () => (.ok, s.emit_unresolved_instruction op operands)
            else (.ok, s.emit_unresolved_instruction op operands)

end assembler

end irre

namespace irre

namespace assembler

/-- Escape table inside `parse_data_content` (`actions.cpp`). -/
def escape_byte (c : Char) : Option Nat :=
  if c = 'n' then some 10
  else if c = 't' then some 9
  else if c = 'r' then some 13
  else if c = '\\' then some 92
  else if c = '"' then some 34
  else if c = '0' then some 0
  else none

/-- String-literal scanner inside `parse_data_content` (`actions.cpp`):
consumes characters up to the closing quote, translating escapes; a
backslash at end of input is kept literally and the missing close quote
is the unterminated error.  Returns the payload bytes and the remaining
characters after the closing quote. -/
def parse_string_lit : List Char → Except String (List Nat × List Char)
  | [] => .error "unterminated string literal"
  | c :: cs =>
      if c = '"' then .ok ([], cs)
      else if c = '\\' then
        match cs with
        | e :: cs2 =>
            match escape_byte e with
            | some b => (parse_string_lit cs2).map (fun p => (b :: p.1, p.2))
            | none => .error "invalid escape sequence"
        | [] => (parse_string_lit []).map (fun p => (92 :: p.1, p.2))
      else (parse_string_lit cs).map (fun p => (c.toNat % 256 :: p.1, p.2))
termination_by cs => cs.length

/-- Helper for the termination of the data-content loop: a successful
string-literal scan strictly consumes input. -/
theorem parse_string_lit_rest_lt :
    ∀ (n : Nat) (cs : List Char), cs.length ≤ n → ∀ bs r,
      parse_string_lit cs = .ok (bs, r) → r.length < cs.length := by
  intro n
  induction n with
  | zero =>
      intro cs hlen bs r h
      match cs with
      | [] => simp [parse_string_lit] at h
      | c :: cs2 => simp at hlen
  | succ n ih =>
      intro cs hlen bs r h
      match cs with
      | [] => simp [parse_string_lit] at h
      | c :: cs2 =>
          rw [parse_string_lit.eq_def] at h
          simp only at h
          by_cases hq : c = '"'
          · rw [if_pos hq] at h
            simp only [Except.ok.injEq, Prod.mk.injEq] at h
            obtain ⟨-, hr⟩ := h
            subst hr
            simp
          · rw [if_neg hq] at h
            by_cases hb : c = '\\'
            · rw [if_pos hb] at h
              match cs2 with
              | [] =>
                  rw [show parse_string_lit [] =
                    .error "unterminated string literal" from by
                      rw [parse_string_lit.eq_def]] at h
                  simp [Except.map] at h
              | e :: cs3 =>
                  simp only at h
                  cases hesc : escape_byte e with
                  | none =>
                      rw [hesc] at h
                      simp at h
                  | some b =>
                      rw [hesc] at h
                      simp only at h
                      cases hrec : parse_string_lit cs3 with
                      | error msg =>
                          rw [hrec] at h
                          simp [Except.map] at h
                      | ok p =>
                          rw [hrec] at h
                          simp only [Except.map, Except.ok.injEq, Prod.mk.injEq] at h
                          obtain ⟨-, hr⟩ := h
                          subst hr
                          have hlt := ih cs3 (by simp at hlen; omega) p.1 p.2 (by rw [hrec])
                          simp at hlt ⊢
                          omega
            · rw [if_neg hb] at h
              cases hrec : parse_string_lit cs2 with
              | error msg =>
                  rw [hrec] at h
                  simp [Except.map] at h
              | ok p =>
                  rw [hrec] at h
                  simp only [Except.map, Except.ok.injEq, Prod.mk.injEq] at h
                  obtain ⟨-, hr⟩ := h
                  subst hr
                  have hlt := ih cs2 (by simp at hlen; omega) p.1 p.2 (by rw [hrec])
                  simp at hlt ⊢
                  omega

/-- Data-payload parser, from `parse_data_content` in `actions.cpp`:
skip whitespace, stop at `;` comments, scan quoted string literals into
their byte sequences, and emit each numeric token as 4 little-endian
bytes. -/
def parse_data_content_go (cs : List Char) : Except String (List Nat) :=
  match cs with
  | [] => .ok []
  | c :: cs2 =>
      if c.isWhitespace then parse_data_content_go cs2
      else if c = ';' then .ok []
      else if c = '"' then
        match hlit : parse_string_lit cs2 with
        | .error e => .error e
        | .ok p => (parse_data_content_go p.2).map (fun l => p.1 ++ l)
      else
        match parse_immediate ⟨(c :: cs2).takeWhile (fun ch => !ch.isWhitespace)⟩ with
        | .error e =>
            .error ("invalid number: " ++
              (⟨(c :: cs2).takeWhile (fun ch => !ch.isWhitespace)⟩ : String) ++
              " (" ++ e ++ ")")
        | .ok v =>
            (parse_data_content_go ((c :: cs2).dropWhile (fun ch => !ch.isWhitespace))).map
              (fun l => v % 256 :: v / 2 ^ 8 % 256 :: v / 2 ^ 16 % 256 :: v / 2 ^ 24 % 256 :: l)
termination_by cs.length
decreasing_by
  · simp
  · rename_i cs2 _hw _hc _hq
    have := parse_string_lit_rest_lt cs2.length cs2 (Nat.le_refl _) p.1 p.2 (by rw [hlit])
    simp
    omega
  · rw [List.dropWhile_cons]
    split
    · exact Nat.lt_of_le_of_lt ((List.dropWhile_sublist _).length_le) (by simp)
    · simp_all

def parse_data_content (s : String) : Except String (List Nat) :=
  parse_data_content_go s.data

/-- The `%d` directive's grammar action, from `actions.hpp`
(`action<grammar::directive_data>`): it ignores the directive body and
emits a placeholder one-byte data block `{0x00}`. -/
def directive_data_action (s : parse_state) : parse_state := s.emit_data [0x00]

/-- Symbol error kinds, from `symbols.hpp`. -/
inductive symbol_error where
  | undefined_symbol
  | duplicate_symbol
  | invalid_symbol_reference
deriving DecidableEq, Repr

/-- Symbol error record, from `symbols.hpp`; its constructor derives
the message from the kind and name. -/
structure symbol_error_info where
  error : symbol_error
  symbol_name : String
  location : source_location
  message : String
deriving DecidableEq, Repr

/-- The `symbol_error_info` constructor from `symbols.hpp`. -/
def mk_symbol_error (err : symbol_error) (name : String) (loc : source_location) :
    symbol_error_info :=
  ⟨err, name, loc,
    match err with
    | .undefined_symbol => "undefined symbol '" ++ name ++ "'"
    | .duplicate_symbol => "duplicate symbol '" ++ name ++ "'"
    | .invalid_symbol_reference => "invalid symbol reference '" ++ name ++ "'"⟩

/-- Symbol table, from `symbols.hpp`: name-to-address map plus the
definition locations; the hash maps are modelled as association lists
with unique keys (lookup returns the first, and only, binding). -/
structure symbol_table where
  symbols : List (String × Nat)
  symbol_locations : List (String × source_location)
deriving DecidableEq, Repr

/-- Pass-1 walk, from `symbol_table::build` in `symbols.cpp`: running
uint32 address from 0; labels bind (duplicates error with the later
definition's location), instructions add 4, data blocks their size. -/
def symbol_table.build_go : List asm_item → List (String × Nat) →
    List (String × source_location) → Nat → Except symbol_error_info symbol_table
  | [], syms, locs, _ => .ok ⟨syms, locs⟩
  | .label l :: rest, syms, locs, addr =>
      if (syms.lookup l.name).isSome then
        .error (mk_symbol_error .duplicate_symbol l.name l.location)
      else symbol_table.build_go rest (syms ++ [(l.name, addr)])
        (locs ++ [(l.name, l.location)]) addr
  | .instr _ :: rest, syms, locs, addr =>
      symbol_table.build_go rest syms locs ((addr + 4) % 2 ^ 32)
  | .unresolved _ :: rest, syms, locs, addr =>
      symbol_table.build_go rest syms locs ((addr + 4) % 2 ^ 32)
  | .data d :: rest, syms, locs, addr =>
      symbol_table.build_go rest syms locs ((addr + d.bytes.length) % 2 ^ 32)

def symbol_table.build (items : List asm_item) : Except symbol_error_info symbol_table :=
  symbol_table.build_go items [] [] 0

/-- From `symbol_table::resolve` in `symbols.cpp`. -/
def symbol_table.resolve (st : symbol_table) (name : String) (loc : source_location) :
    Except symbol_error_info Nat :=
  match st.symbols.lookup name with
  | none => .error (mk_symbol_error .undefined_symbol name loc)
  | some addr => .ok addr

/-- From `symbol_table::get_entry_address` in `symbols.cpp`: lookup
with default 0. -/
def symbol_table.get_entry_address (st : symbol_table) (entry_label : String) : Nat :=
  (st.symbols.lookup entry_label).getD 0

/-- The resolver's operand result, from `symbols.hpp`:
`std::variant<reg, uint32_t, uint8_t>`. -/
inductive resolved_operand where
  | register (r : Nat)
  | imm32 (v : Nat)
  | imm8 (v : Nat)
deriving DecidableEq, Repr

/-- Outcome of C++ code that may return a value, return a typed error,
or let an exception escape (`std::bad_variant_access` from an unchecked
`std::get`). -/
inductive cpp_outcome (ε α : Type) where
  | ok (a : α)
  | err (e : ε)
  | thrown
deriving DecidableEq, Repr

/-- From `symbol_resolver::resolve_operand` in `symbols.cpp`: registers
pass through, integers narrow to uint8 when an 8-bit slot is requested,
labels are looked up (missing is `undefined_symbol`). -/
def resolve_operand (st : symbol_table) (o : operand) (loc : source_location)
    (is_8bit : Bool) : Except symbol_error_info resolved_operand :=
  match o with
  | .register r => .ok (.register r)
  | .imm v => if is_8bit then .ok (.imm8 (v % 2 ^ 8)) else .ok (.imm32 v)
  | .label name =>
      match symbol_table.resolve st name loc with
      | .error e => .error e
      | .ok addr => if is_8bit then .ok (.imm8 (addr % 2 ^ 8)) else .ok (.imm32 addr)

/-- Models `std::get<reg>` on a resolver operand (`none` = thrown
`std::bad_variant_access`). -/
def resolved_operand.get_reg : resolved_operand → Option Nat
  | .register r => some r
  | _ => none

/-- Models `std::get<uint32_t>` on a resolver operand. -/
def resolved_operand.get_u32 : resolved_operand → Option Nat
  | .imm32 v => some v
  | _ => none

/-- Models `std::get<uint8_t>` on a resolver operand. -/
def resolved_operand.get_u8 : resolved_operand → Option Nat
  | .imm8 v => some v
  | _ => none

/-- From `symbol_resolver::resolve_instruction` in `symbols.cpp`:
dispatch on the opcode's format, resolve each operand, then extract the
fields with unchecked `std::get` - an operand of the wrong variant there
escapes as a thrown exception (`.thrown`). -/
def resolve_instruction (st : symbol_table) (u : unresolved_instruction) :
    cpp_outcome symbol_error_info Instruction :=
  match getFormat u.op with
  | .op => .ok (.inst_op u.op)
  | .op_reg =>
      match u.operands with
      | [o1] =>
          match resolve_operand st o1 u.location false with
          | .error e => .err e
          | .ok ro =>
              match ro.get_reg with
              | none => .thrown
              | some r => .ok (.inst_op_reg u.op r)
      | _ => .err (mk_symbol_error .invalid_symbol_reference "<operand>" u.location)
  | .op_imm24 =>
      match u.operands with
      | [o1] =>
          match resolve_operand st o1 u.location false with
          | .error e => .err e
          | .ok ro =>
              match ro.get_u32 with
              | none => .thrown
              | some v => .ok (.inst_op_imm24 u.op v)
      | _ => .err (mk_symbol_error .invalid_symbol_reference "<operand>" u.location)
  | .op_reg_imm16 =>
      match u.operands with
      | [o1, o2] =>
          match resolve_operand st o1 u.location false,
              resolve_operand st o2 u.location false with
          | .error e, _ => .err e
          | _, .error e => .err e
          | .ok r1, .ok r2 =>
              match r1.get_reg, r2.get_u32 with
              | some r, some v => .ok (.inst_op_reg_imm16 u.op r (v % 2 ^ 16))
              | _, _ => .thrown
      | _ => .err (mk_symbol_error .invalid_symbol_reference "<operand>" u.location)
  | .op_reg_reg =>
      match u.operands with
      | [o1, o2] =>
          match resolve_operand st o1 u.location false,
              resolve_operand st o2 u.location false with
          | .error e, _ => .err e
          | _, .error e => .err e
          | .ok r1, .ok r2 =>
              match r1.get_reg, r2.get_reg with
              | some v1, some v2 => .ok (.inst_op_reg_reg u.op v1 v2)
              | _, _ => .thrown
      | _ => .err (mk_symbol_error .invalid_symbol_reference "<operand>" u.location)
  | .op_reg_reg_imm8 =>
      match u.operands with
      | [o1, o2, o3] =>
          match resolve_operand st o1 u.location false,
              resolve_operand st o2 u.location false,
              resolve_operand st o3 u.location true with
          | .error e, _, _ => .err e
          | _, .error e, _ => .err e
          | _, _, .error e => .err e
          | .ok r1, .ok r2, .ok r3 =>
              match r1.get_reg, r2.get_reg, r3.get_u8 with
              | some v1, some v2, some v3 => .ok (.inst_op_reg_reg_imm8 u.op v1 v2 v3)
              | _, _, _ => .thrown
      | _ => .err (mk_symbol_error .invalid_symbol_reference "<operand>" u.location)
  | .op_reg_imm8x2 =>
      match u.operands with
      | [o1, o2, o3] =>
          match resolve_operand st o1 u.location false,
              resolve_operand st o2 u.location true,
              resolve_operand st o3 u.location true with
          | .error e, _, _ => .err e
          | _, .error e, _ => .err e
          | _, _, .error e => .err e
          | .ok r1, .ok r2, .ok r3 =>
              match r1.get_reg, r2.get_u8, r3.get_u8 with
              | some v1, some v2, some v3 => .ok (.inst_op_reg_imm8x2 u.op v1 v2 v3)
              | _, _, _ => .thrown
      | _ => .err (mk_symbol_error .invalid_symbol_reference "<operand>" u.location)
  | .op_reg_reg_reg =>
      match u.operands with
      | [o1, o2, o3] =>
          match resolve_operand st o1 u.location false,
              resolve_operand st o2 u.location false,
              resolve_operand st o3 u.location false with
          | .error e, _, _ => .err e
          | _, .error e, _ => .err e
          | _, _, .error e => .err e
          | .ok r1, .ok r2, .ok r3 =>
              match r1.get_reg, r2.get_reg, r3.get_reg with
              | some v1, some v2, some v3 => .ok (.inst_op_reg_reg_reg u.op v1 v2 v3)
              | _, _, _ => .thrown
      | _ => .err (mk_symbol_error .invalid_symbol_reference "<operand>" u.location)
  | .invalid => .err (mk_symbol_error .invalid_symbol_reference "<unknown>" u.location)

/-- Pass-2 walk, from `symbol_resolver::resolve` in `symbols.cpp`:
concrete instructions pass through, unresolved instructions are
resolved (first error stops), labels and data blocks are skipped. -/
def symbol_resolver_resolve (st : symbol_table) :
    List asm_item → cpp_outcome symbol_error_info (List Instruction)
  | [] => .ok []
  | .instr i :: rest =>
      match symbol_resolver_resolve st rest with
      | .ok l => .ok (i :: l)
      | .err e => .err e
      | .thrown => .thrown
  | .unresolved u :: rest =>
      match resolve_instruction st u with
      | .err e => .err e
      | .thrown => .thrown
      | .ok i =>
          match symbol_resolver_resolve st rest with
          | .ok l => .ok (i :: l)
          | .err e => .err e
          | .thrown => .thrown
  | .label _ :: rest => symbol_resolver_resolve st rest
  | .data _ :: rest => symbol_resolver_resolve st rest

/-- From `codec::encode_bytes` in `encoding.hpp`: little-endian split
of the encoded word. -/
def encode_bytes (i : Instruction) : List Nat :=
  [encode i % 256, encode i / 2 ^ 8 % 256, encode i / 2 ^ 16 % 256, encode i / 2 ^ 24 % 256]

/-- From `assembler::encode_instructions` in `assembler.cpp`. -/
def encode_instructions : List Instruction → List Nat
  | [] => []
  | i :: rest => encode_bytes i ++ encode_instructions rest

/-- Assembly error kinds, from `assembler.hpp`. -/
inductive assemble_error where
  | parse_error
  | undefined_symbol
  | invalid_instruction
  | invalid_register
  | invalid_immediate
  | duplicate_label
  | invalid_directive
deriving DecidableEq, Repr

/-- Assembly error with location, from `assembler.hpp`. -/
structure assembly_error where
  error : assemble_error
  message : String
  line : Nat
  column : Nat
deriving DecidableEq, Repr

/-- From `assembler::resolve_symbols` in `assembler.cpp`: build the
symbol table, then resolve; either failure is reported as an
`undefined_symbol` assembly error at the symbol's location. -/
def assembler_resolve_symbols (items : List asm_item) :
    cpp_outcome assembly_error (List Instruction) :=
  match symbol_table.build items with
  | .error e => .err ⟨.undefined_symbol, e.message, e.location.line, e.location.column⟩
  | .ok st =>
      match symbol_resolver_resolve st items with
      | .err e => .err ⟨.undefined_symbol, e.message, e.location.line, e.location.column⟩
      | .thrown => .thrown
      | .ok instrs => .ok instrs

/-- Steps 2-4 of `assembler::assemble` in `assembler.cpp`, applied to
the parsed items and entry label: resolve symbols, encode the resolved
instructions into the code section, and resolve the entry offset.  The
object's `data` member is never assigned and keeps its default empty
value; the parsed data blocks are not collected. -/
def assemble_from_items (items : List asm_item) (entry_label : String) :
    cpp_outcome assembly_error object_file :=
  match assembler_resolve_symbols items with
  | .err e => .err ⟨.undefined_symbol, e.message, 0, 0⟩
  | .thrown => .thrown
  | .ok instructions =>
      let code_bytes := encode_instructions instructions
      let entry :=
        if entry_label ≠ "" then
          match symbol_table.build items with
          | .ok st => st.get_entry_address entry_label
          | .error _ => 0
        else 0
      .ok { entry_offset := entry, code := code_bytes, data := [] }

end assembler

end irre

namespace irre

namespace assembler

/-- C7: the validator accepts a 32-bit value V for field width N
exactly when V fits unsigned in N bits or represents an N-bit negative
in the 32-bit carrier (V >= 2^32 - 2^(N-1)), otherwise reporting
`immediate_out_of_range`; consequently `set r0 $FFFF` validates,
`set r0 $10000` is rejected with `immediate_out_of_range`, and
`set r0 #-1` is assembled as a concrete `set` with 0xFFFF in the
16-bit immediate slot. -/
theorem immediate_range_check :
    (∀ value bits : Nat, value < 2 ^ 32 → (bits = 8 ∨ bits = 16 ∨ bits = 24) →
      ((validate_immediate_range value bits).success = true ↔
        (value ≤ 2 ^ bits - 1 ∨ value ≥ 2 ^ 32 - 2 ^ (bits - 1)))) ∧
    (validate_instruction_operands 0x0b ["r0", "$FFFF"]).success = true ∧
    ((validate_instruction_operands 0x0b ["r0", "$10000"]).success = false ∧
      (validate_instruction_operands 0x0b ["r0", "$10000"]).error =
        .immediate_out_of_range) ∧
    (process_single_instruction parse_state.initial "set" ["r0", "#-1"]).2.items =
      [.instr (.inst_op_reg_imm16 0x0b 0x00 0xFFFF)] := by
  refine ⟨?_, rfl, ⟨rfl, rfl⟩, rfl⟩
  intro value bits hv hbits
  rcases hbits with h | h | h <;> subst h <;>
    · unfold validate_immediate_range
      split_ifs with h1 h2 <;>
        simp [validation_result.ok, validation_result.fail] <;> omega

/-- C7 witness: the range characterization applied at value 0xFFFF,
width 16. -/
theorem immediate_range_check_witness :
    (validate_immediate_range 0xFFFF 16).success = true ↔
      (0xFFFF ≤ 2 ^ 16 - 1 ∨ 0xFFFF ≥ 2 ^ 32 - 2 ^ (16 - 1)) :=
  immediate_range_check.1 0xFFFF 16 (by omega) (Or.inr (Or.inl rfl))

/-- C3: the claim fails on the code.  The `%d` grammar action emits a
placeholder data block `{0x00}` regardless of the directive body (the
payload parser `parse_data_content`, which would yield the real bytes,
is never called), and the assembler driver never assigns the object
file's `data` member, so the produced data section is always empty.
Evaluated here on the item stream of `%d 42` followed by `hlt`: the
object's data section is `[]`, while the source-order payload
concatenation would be `[42, 0, 0, 0]`. -/
theorem data_section_not_populated :
    (directive_data_action parse_state.initial).items = [.data ⟨[0x00], ⟨0, 0⟩⟩] ∧
    parse_data_content "42" = .ok [42, 0, 0, 0] ∧
    assemble_from_items [.data ⟨[0x00], ⟨0, 0⟩⟩, .instr (.inst_op 0xff)] "" =
      .ok ⟨0, [0, 0, 0, 0xff], []⟩ := by
  refine ⟨rfl, ?_, rfl⟩
  simp [parse_data_content, parse_data_content_go, parse_immediate, stoulCatch, stoulModel,
    stoulDigits, decDigitVal, hexDigitVal, Except.map]

/-- C6: the claim fails on the code.  `jmp 5` passes operand validation
(the op_reg shape accepts a register or an immediate), the parser emits
an unresolved instruction holding the numeric operand, and
`symbol_resolver::resolve_instruction` then applies `std::get<reg>` to
a variant holding a uint32_t: the resulting `std::bad_variant_access`
escapes `assemble` instead of a typed result (`.thrown` in the
model). -/
theorem op_reg_immediate_escapes_result_shape :
    (process_single_instruction parse_state.initial "jmp" ["5"]).1.success = true ∧
    (process_single_instruction parse_state.initial "jmp" ["5"]).2.items =
      [.unresolved ⟨0x21, [.imm 5], ⟨0, 0⟩⟩] ∧
    assemble_from_items [.unresolved ⟨0x21, [.imm 5], ⟨0, 0⟩⟩] "" = .thrown :=
  ⟨rfl, rfl, rfl⟩

end assembler

end irre

namespace irre

namespace assembler

/-- Byte size an item contributes in pass 1 (instructions and
unresolved instructions 4, labels 0, data blocks their payload
length). -/
def asm_item.size : asm_item → Nat
  | .instr _ => 4
  | .unresolved _ => 4
  | .label _ => 0
  | .data d => d.bytes.length

/-- Sum of the sizes of a list of items. -/
def size_sum (items : List asm_item) : Nat := (items.map asm_item.size).sum

/-- Spec-level restatement of the claim's duplicate rule: walking the
items in order, the first label whose name is already bound (`seen`)
is reported together with the location of that later definition. -/
def first_dup : List asm_item → List String → Option (String × source_location)
  | [], _ => none
  | .label l :: rest, seen =>
      if l.name ∈ seen then some (l.name, l.location) else first_dup rest (l.name :: seen)
  | .instr _ :: rest, seen => first_dup rest seen
  | .unresolved _ :: rest, seen => first_dup rest seen
  | .data _ :: rest, seen => first_dup rest seen

/-- Association-list lookup distributes over append. -/
theorem lookup_append_or (l₁ l₂ : List (String × Nat)) (n : String) :
    (l₁ ++ l₂).lookup n = ((l₁.lookup n).or (l₂.lookup n)) := by
  induction l₁ with
  | nil => simp [List.lookup]
  | cons p l ih =>
      obtain ⟨k, v⟩ := p
      simp only [List.cons_append, List.lookup]
      split
      · rfl
      · exact ih

/-- Helper for C8: pass 1 preserves bindings already present in the
accumulated map. -/
theorem build_go_lookup_preserved :
    ∀ (items : List asm_item) (syms : List (String × Nat))
      (locs : List (String × source_location)) (addr : Nat) (st : symbol_table),
      symbol_table.build_go items syms locs addr = .ok st →
      ∀ n v, syms.lookup n = some v → st.symbols.lookup n = some v := by
  intro items
  induction items with
  | nil =>
      intro syms locs addr st h n v hv
      simp only [symbol_table.build_go, Except.ok.injEq] at h
      subst h
      exact hv
  | cons head rest ih =>
      intro syms locs addr st h n v hv
      cases head with
      | label l =>
          simp only [symbol_table.build_go] at h
          split at h
          · exact absurd h (by simp)
          · refine ih _ _ _ st h n v ?_
            rw [lookup_append_or, hv]
            rfl
      | instr i0 =>
          simp only [symbol_table.build_go] at h
          exact ih _ _ _ st h n v hv
      | unresolved u =>
          simp only [symbol_table.build_go] at h
          exact ih _ _ _ st h n v hv
      | data d =>
          simp only [symbol_table.build_go] at h
          exact ih _ _ _ st h n v hv

/-- Helper for C8: when pass 1 succeeds, each label item is bound to
the running address at which the walk reached it. -/
theorem build_go_ok_lookup :
    ∀ (items : List asm_item) (syms : List (String × Nat))
      (locs : List (String × source_location)) (addr : Nat) (st : symbol_table),
      addr < 2 ^ 32 →
      symbol_table.build_go items syms locs addr = .ok st →
      ∀ i (hi : i < items.length) name loc,
        items.get ⟨i, hi⟩ = .label ⟨name, loc⟩ →
        st.symbols.lookup name = some ((addr + size_sum (List.take i items)) % 2 ^ 32) := by
  intro items
  induction items with
  | nil =>
      intro syms locs addr st haddr h i hi
      simp at hi
  | cons head rest ih =>
      intro syms locs addr st haddr h i hi name loc hget
      cases head with
      | label l =>
          simp only [symbol_table.build_go] at h
          split at h
          · exact absurd h (by simp)
          · rename_i hnotsome
            match i with
            | 0 =>
                have hl : asm_item.label l = asm_item.label ⟨name, loc⟩ := hget
                injection hl with hl2
                have hbind : (syms ++ [(l.name, addr)]).lookup name = some addr := by
                  rw [lookup_append_or]
                  have hx0 : syms.lookup l.name = none := by
                    cases hx : syms.lookup l.name with
                    | none => rfl
                    | some v => rw [hx] at hnotsome; simp at hnotsome
                  rw [hl2] at hx0
                  rw [hx0, hl2]
                  simp [List.lookup]
                have := build_go_lookup_preserved rest _ _ _ st h name addr hbind
                rw [this]
                congr 1
                simp [size_sum]
                omega
            | j + 1 =>
                have hrec := ih _ _ _ st haddr h j (Nat.lt_of_succ_lt_succ hi) name loc hget
                rw [hrec]
                congr 1
                simp [size_sum, asm_item.size, List.take_succ_cons]
      | instr i0 =>
          simp only [symbol_table.build_go] at h
          match i with
          | 0 =>
              exact absurd hget (by simp)
          | j + 1 =>
              have hrec := ih _ _ _ st (by omega) h j (Nat.lt_of_succ_lt_succ hi) name loc hget
              rw [hrec]
              congr 1
              simp only [List.take_succ_cons, size_sum, List.map_cons, List.sum_cons,
                asm_item.size]
              omega
      | unresolved u =>
          simp only [symbol_table.build_go] at h
          match i with
          | 0 =>
              exact absurd hget (by simp)
          | j + 1 =>
              have hrec := ih _ _ _ st (by omega) h j (Nat.lt_of_succ_lt_succ hi) name loc hget
              rw [hrec]
              congr 1
              simp only [List.take_succ_cons, size_sum, List.map_cons, List.sum_cons,
                asm_item.size]
              omega
      | data d =>
          simp only [symbol_table.build_go] at h
          match i with
          | 0 =>
              exact absurd hget (by simp)
          | j + 1 =>
              have hrec := ih _ _ _ st (by omega) h j (Nat.lt_of_succ_lt_succ hi) name loc hget
              rw [hrec]
              congr 1
              simp only [List.take_succ_cons, size_sum, List.map_cons, List.sum_cons,
                asm_item.size]
              omega

/-- Helper for C8: pass 1 fails exactly on the first label whose name
is already bound, reporting that name with the later definition's
location. -/
theorem build_go_first_dup :
    ∀ (items : List asm_item) (syms : List (String × Nat))
      (locs : List (String × source_location)) (addr : Nat) (seen : List String),
      (∀ n : String, n ∈ seen ↔ (syms.lookup n).isSome = true) →
      (match first_dup items seen with
        | some (n, l) =>
            symbol_table.build_go items syms locs addr =
              .error (mk_symbol_error .duplicate_symbol n l)
        | none => ∃ st, symbol_table.build_go items syms locs addr = .ok st) := by
  intro items
  induction items with
  | nil =>
      intro syms locs addr seen hcorr
      simp [first_dup, symbol_table.build_go]
  | cons head rest ih =>
      intro syms locs addr seen hcorr
      cases head with
      | label l =>
          by_cases hmem : l.name ∈ seen
          · have hsome : (syms.lookup l.name).isSome = true := (hcorr l.name).mp hmem
            simp only [first_dup, if_pos hmem]
            simp only [symbol_table.build_go, hsome, if_pos]
          · have hnone : syms.lookup l.name = none := by
              cases hx : syms.lookup l.name with
              | none => rfl
              | some v =>
                  exact absurd ((hcorr l.name).mpr (by rw [hx]; rfl)) hmem
            simp only [first_dup, if_neg hmem]
            have hstep : symbol_table.build_go (asm_item.label l :: rest) syms locs addr =
                symbol_table.build_go rest (syms ++ [(l.name, addr)])
                  (locs ++ [(l.name, l.location)]) addr := by
              simp only [symbol_table.build_go, hnone]
              rfl
            rw [hstep]
            apply ih
            intro n
            rw [lookup_append_or]
            constructor
            · intro hn
              rcases List.mem_cons.mp hn with hn | hn
              · subst hn
                rw [hnone]
                simp [List.lookup]
              · have := (hcorr n).mp hn
                cases hx : syms.lookup n with
                | none => rw [hx] at this; simp at this
                | some v => simp [hx]
            · intro hn
              cases hx : syms.lookup n with
              | some v => exact List.mem_cons_of_mem _ ((hcorr n).mpr (by rw [hx]; rfl))
              | none =>
                  rw [hx] at hn
                  simp only [Option.or] at hn
                  by_cases hne : n = l.name
                  · exact hne ▸ List.mem_cons_self _ _
                  · exfalso
                    simp only [List.lookup] at hn
                    rw [show (n == l.name) = false from by
                      simpa using hne] at hn
                    simp at hn
      | instr i0 =>
          simp only [first_dup, symbol_table.build_go]
          exact ih _ _ _ _ hcorr
      | unresolved u =>
          simp only [first_dup, symbol_table.build_go]
          exact ih _ _ _ _ hcorr
      | data d =>
          simp only [first_dup, symbol_table.build_go]
          exact ih _ _ _ _ hcorr

/-- Sum of sizes of a prefix is at most the total. -/
theorem size_sum_take_le (items : List asm_item) (i : Nat) :
    size_sum (List.take i items) ≤ size_sum items := by
  induction items generalizing i with
  | nil => simp [size_sum]
  | cons head rest ih =>
      match i with
      | 0 => simp [size_sum]
      | j + 1 =>
          simp only [List.take_succ_cons, size_sum, List.map_cons, List.sum_cons]
          have := ih j
          simp only [size_sum] at this
          omega

end assembler

end irre

namespace irre

namespace assembler

/-- C8: pass 1 walks the items in order with a running address starting
at 0 (instructions and unresolved instructions contribute 4 bytes, data
blocks their payload length, labels 0) and, when it succeeds, binds
each label to the sum of the sizes of all items preceding it; the
first label whose name is already present yields `duplicate_symbol`
carrying that name and the location of the later definition (and build
succeeds exactly when there is no such duplicate). -/
theorem symbol_table_pass1 (items : List asm_item) (hsz : size_sum items < 2 ^ 32) :
    (∀ st, symbol_table.build items = .ok st →
      ∀ i (hi : i < items.length) name loc,
        items.get ⟨i, hi⟩ = .label ⟨name, loc⟩ →
        st.symbols.lookup name = some (size_sum (List.take i items))) ∧
    (match first_dup items [] with
      | some (n, l) =>
          symbol_table.build items = .error (mk_symbol_error .duplicate_symbol n l)
      | none => ∃ st, symbol_table.build items = .ok st) := by
  constructor
  · intro st hok i hi name loc hget
    have h := build_go_ok_lookup items [] [] 0 st (by omega) hok i hi name loc hget
    rw [h]
    congr 1
    have hle := size_sum_take_le items i
    omega
  · exact build_go_first_dup items [] [] 0 [] (by simp)

/-- C8 witness: the pass-1 characterization applied to a concrete item
list `hlt; main: ; %d(3 bytes); after:` - `main` binds at 4 (after one
instruction) and the walk succeeds. -/
theorem symbol_table_pass1_witness :
    (∃ st, symbol_table.build
      [.instr (.inst_op 0xff), .label ⟨"main", ⟨2, 1⟩⟩, .data ⟨[1, 2, 3], ⟨3, 1⟩⟩,
        .label ⟨"after", ⟨4, 1⟩⟩] = .ok st) ∧
    (∀ st, symbol_table.build
      [.instr (.inst_op 0xff), .label ⟨"main", ⟨2, 1⟩⟩, .data ⟨[1, 2, 3], ⟨3, 1⟩⟩,
        .label ⟨"after", ⟨4, 1⟩⟩] = .ok st →
      st.symbols.lookup "main" = some 4) := by
  have h := symbol_table_pass1
    [.instr (.inst_op 0xff), .label ⟨"main", ⟨2, 1⟩⟩, .data ⟨[1, 2, 3], ⟨3, 1⟩⟩,
      .label ⟨"after", ⟨4, 1⟩⟩] (by simp [size_sum, asm_item.size])
  refine ⟨h.2, ?_⟩
  intro st hok
  exact h.1 st hok 1 (by simp) "main" ⟨2, 1⟩ rfl

end assembler

end irre

namespace irre

namespace emu

/-- Execution state of the VM, from `state.hpp`. -/
inductive execution_state where
  | running
  | halted
  | error
deriving DecidableEq, Repr

/-- Runtime error kinds, from `state.hpp`.  The VM records them in an
`error_info`; only the resulting `error` execution state matters for
the properties below. -/
inductive vm_runtime_error where
  | invalid_memory_access
  | division_by_zero
  | invalid_register
  | invalid_instruction
  | misaligned_instruction
  | device_error
deriving DecidableEq, Repr

/-- The VM's mutable context, from `vm.hpp`/`state.hpp`: the 37-slot
register file (`regs i` is slot `i`; slots hold uint32 words, so reads
go through `read` below), the execution state, the byte-addressable
memory owned by the VM, and the statistics counters. -/
structure vm_state where
  regs : Nat → Nat
  exec : execution_state
  mem : List Nat
  instruction_count : Nat
  cycle_count : Nat

/-- Register read, from `register_file::read`: the array stores uint32
words (the mod reflects that typing). -/
def vm_state.read (s : vm_state) (i : Nat) : Nat := s.regs i % 2 ^ 32

/-- Register write, from `register_file::write`. -/
def vm_state.write (s : vm_state) (i v : Nat) : vm_state :=
  { s with regs := fun j => if j = i then v else s.regs j }

/-- From `vm_state::error`: enter the error state (the error callback
observes but does not mutate VM state). -/
def vm_state.to_error (s : vm_state) : vm_state := { s with exec := .error }

/-- Outcome of a memory access: a value, a thrown `std::out_of_range`
(`oob`), or undefined behavior (`ub`) - an unchecked
`std::vector::operator[]` access past the end. -/
inductive mem_result (α : Type) where
  | val (a : α)
  | oob
  | ub
deriving DecidableEq, Repr

/-- Word read, from `memory::read_word`: the source guard
`addr + 4 > data_.size()` adds in `unsigned int`, so it wraps modulo
2^32 before the comparison; the four `data_[addr + k]` accesses also
index with wrapped uint32 sums and are unchecked, so an in-guard but
out-of-range index is undefined behavior.  Bytes are uint8 (the mod
256 reflects that typing); composition is little-endian. -/
def memory.read_word (mem : List Nat) (addr : Nat) : mem_result Nat :=
  if (addr + 4) % 2 ^ 32 > mem.length then .oob
  else if addr < mem.length ∧ (addr + 1) % 2 ^ 32 < mem.length ∧
      (addr + 2) % 2 ^ 32 < mem.length ∧ (addr + 3) % 2 ^ 32 < mem.length then
    .val (mem.getD addr 0 % 256 + mem.getD ((addr + 1) % 2 ^ 32) 0 % 256 * 2 ^ 8 +
      mem.getD ((addr + 2) % 2 ^ 32) 0 % 256 * 2 ^ 16 +
      mem.getD ((addr + 3) % 2 ^ 32) 0 % 256 * 2 ^ 24)
  else .ub

/-- Word write, from `memory::write_word`: same wrapped guard and
unchecked indices as `read_word`; stores the four bytes little-endian. -/
def memory.write_word (mem : List Nat) (addr value : Nat) : mem_result (List Nat) :=
  if (addr + 4) % 2 ^ 32 > mem.length then .oob
  else if addr < mem.length ∧ (addr + 1) % 2 ^ 32 < mem.length ∧
      (addr + 2) % 2 ^ 32 < mem.length ∧ (addr + 3) % 2 ^ 32 < mem.length then
    .val ((((mem.set addr (value % 256)).set ((addr + 1) % 2 ^ 32) (value / 2 ^ 8 % 256)).set
      ((addr + 2) % 2 ^ 32) (value / 2 ^ 16 % 256)).set ((addr + 3) % 2 ^ 32)
      (value / 2 ^ 24 % 256))
  else .ub

/-- Byte read, from `memory::read_byte`: the guard
`addr >= data_.size()` compares in `size_t` without wrapping, so byte
access is fully checked. -/
def memory.read_byte (mem : List Nat) (addr : Nat) : mem_result Nat :=
  if addr ≥ mem.length then .oob else .val (mem.getD addr 0 % 256)

/-- Byte write, from `memory::write_byte`. -/
def memory.write_byte (mem : List Nat) (addr value : Nat) : mem_result (List Nat) :=
  if addr ≥ mem.length then .oob else .val (mem.set addr (value % 256))

/-- From `memory::is_valid_range`: `addr + size <= data_.size()`,
computed in `size_t` (no wrap). -/
def memory.is_valid_range (mem : List Nat) (addr size : Nat) : Bool :=
  addr + size ≤ mem.length

/-- Effective address of a memory instruction, from
`execution_visitor`: base register plus the sign-extended 8-bit offset,
in uint32 arithmetic. -/
def eff_addr (base off : Nat) : Nat :=
  (base + off + (if off ≥ 128 then 2 ^ 32 - 256 else 0)) % 2 ^ 32

/-- Signed view of a uint32 word (`static_cast<signed_word>`). -/
def to_signed (x : Nat) : Int :=
  if x < 2 ^ 31 then (x : Int) else (x : Int) - 2 ^ 32

/-- Back from a signed result to the uint32 carrier. -/
def of_signed (z : Int) : Nat := (z % 2 ^ 32).toNat

/-- Result of dispatching one instruction (or of a whole step): the new
VM state, or undefined behavior escaping from an unchecked memory
access. -/
inductive step_result where
  | next (s : vm_state)
  | ub

end emu

end irre

namespace irre

namespace emu

/-- Instruction dispatch, from `execution_visitor` in
`execution_visitor.hpp`: one branch per format variant, switching on
the opcode byte; unknown opcodes for a variant raise
`invalid_instruction` (error state).  `dev` is the installed
device-access callback (`snd`); the interrupt callback (`int`) observes
without mutating VM state.  Shift semantics follow the source
(`b << s` modelled as multiplication modulo 2^32, `>>` as division,
arithmetic right shift as floor division of the signed view). -/
def exec_visit (dev : Nat → Nat → Nat → Nat) : Instruction → vm_state → step_result
  | .inst_op op, s =>
      if op = 0x00 then .next s
      else if op = 0x2b then .next ((s.write 0x20 (s.read 0x21)).write 0x21 0)
      else if op = 0xff then .next { s with exec := .halted }
      else .next s.to_error
  | .inst_op_reg op a, s =>
      if op = 0x21 then .next (s.write 0x20 (s.read a))
      else if op = 0x2a then
        .next (let s1 := s.write 0x21 ((s.read 0x20 + 4) % 2 ^ 32)
               s1.write 0x20 (s1.read a))
      else .next s.to_error
  | .inst_op_imm24 op addr, s =>
      if op = 0x20 then .next (s.write 0x20 addr)
      else if op = 0xf0 then .next s
      else .next s.to_error
  | .inst_op_reg_imm16 op a imm, s =>
      if op = 0x0b then .next (s.write a imm)
      else if op = 0x41 then .next (s.write a (s.read a % 2 ^ 16 + imm % 2 ^ 16 * 2 ^ 16))
      else .next s.to_error
  | .inst_op_reg_reg op a b, s =>
      if op = 0x0c then .next (s.write a (s.read b))
      else if op = 0x06 then .next (s.write a (2 ^ 32 - 1 - s.read b))
      else if op = 0x42 then
        .next (s.write a
          (if s.read b % 2 ^ 16 ≥ 2 ^ 15 then s.read b ||| 0xFFFF0000 else s.read b % 2 ^ 16))
      else .next s.to_error
  | .inst_op_reg_reg_imm8 op a b offset, s =>
      if op = 0x0d then
        match memory.read_word s.mem (eff_addr (s.read b) offset) with
        | .val v => .next (s.write a v)
        | .oob => .next s.to_error
        | .ub => .ub
      else if op = 0x0e then
        match memory.write_word s.mem (eff_addr (s.read b) offset) (s.read a) with
        | .val mem2 => .next { s with mem := mem2 }
        | .oob => .next s.to_error
        | .ub => .ub
      else if op = 0x0f then
        match memory.read_byte s.mem (eff_addr (s.read b) offset) with
        | .val v => .next (s.write a v)
        | .oob => .next s.to_error
        | .ub => .ub
      else if op = 0x10 then
        match memory.write_byte s.mem (eff_addr (s.read b) offset) (s.read a % 256) with
        | .val mem2 => .next { s with mem := mem2 }
        | .oob => .next s.to_error
        | .ub => .ub
      else if op = 0x24 then
        .next (if s.read b = offset then s.write 0x20 (s.read a) else s)
      else if op = 0x25 then
        .next (if s.read b ≠ offset then s.write 0x20 (s.read a) else s)
      else if op = 0x43 then
        .next (s.write a (if s.read b = offset then 1 else 0))
      else .next s.to_error
  | .inst_op_reg_imm8x2 op a v0 v1, s =>
      if op = 0x40 then .next (s.write a ((s.read a + v0 % 256 * 2 ^ (v1 % 256)) % 2 ^ 32))
      else .next s.to_error
  | .inst_op_reg_reg_reg op a b c, s =>
      if op = 0x01 then .next (s.write a ((s.read b + s.read c) % 2 ^ 32))
      else if op = 0x02 then .next (s.write a ((s.read b + 2 ^ 32 - s.read c) % 2 ^ 32))
      else if op = 0x30 then .next (s.write a (s.read b * s.read c % 2 ^ 32))
      else if op = 0x31 then
        .next (if s.read c = 0 then s.to_error else s.write a (s.read b / s.read c))
      else if op = 0x32 then
        .next (if s.read c = 0 then s.to_error else s.write a (s.read b % s.read c))
      else if op = 0x03 then .next (s.write a (s.read b &&& s.read c))
      else if op = 0x04 then .next (s.write a (s.read b ||| s.read c))
      else if op = 0x05 then .next (s.write a (s.read b ^^^ s.read c))
      else if op = 0x07 then
        .next
          (if to_signed (s.read c) < -32 ∨ to_signed (s.read c) > 32 then s.to_error
           else if to_signed (s.read c) ≥ 0 then
             s.write a (s.read b * 2 ^ (s.read c) % 2 ^ 32)
           else s.write a (s.read b / 2 ^ (of_signed (-to_signed (s.read c)))))
      else if op = 0x08 then
        .next
          (if to_signed (s.read c) < -32 ∨ to_signed (s.read c) > 32 then s.to_error
           else if to_signed (s.read c) ≥ 0 then
             s.write a (of_signed (to_signed (s.read b) * 2 ^ (s.read c)))
           else s.write a (of_signed ((to_signed (s.read b)).fdiv
             (2 ^ (of_signed (-to_signed (s.read c)))))))
      else if op = 0x09 then
        .next
          (if s.read b < s.read c then s.write a 0xFFFFFFFF
           else if s.read b > s.read c then s.write a 1
           else s.write a 0)
      else if op = 0x0a then
        .next
          (if to_signed (s.read b) < to_signed (s.read c) then s.write a 0xFFFFFFFF
           else if to_signed (s.read b) > to_signed (s.read c) then s.write a 1
           else s.write a 0)
      else if op = 0xfd then
        .next (s.write c (dev (s.read a) (s.read b) (s.read c)))
      else .next s.to_error

/-- One VM step, from `vm::step` in `vm.hpp`: running check, alignment
check, fetch-range check, fetch, decode, dispatch, then advance PC by 4
when the dispatch left PC unchanged and the VM still runs, and bump the
counters.  The two `mem_result` fallbacks after `is_valid_range` are
unreachable (`read_word` cannot fail there). -/
def vm.step (dev : Nat → Nat → Nat → Nat) (s : vm_state) : step_result :=
  if s.exec ≠ .running then .next s
  else
    if s.read 0x20 % 4 ≠ 0 then .next s.to_error
    else if ¬memory.is_valid_range s.mem (s.read 0x20) 4 then .next s.to_error
    else
      match memory.read_word s.mem (s.read 0x20) with
      | .oob => .ub
      | .ub => .ub
      | .val w =>
          match decode w with
          | .error _ => .next s.to_error
          | .ok inst =>
              match exec_visit dev inst s with
              | .ub => .ub
              | .next s1 =>
                  let s2 :=
                    if s1.read 0x20 = s.read 0x20 ∧ s1.exec = .running then
                      s1.write 0x20 ((s.read 0x20 + 4) % 2 ^ 32)
                    else s1
                  .next { s2 with instruction_count := s2.instruction_count + 1,
                                  cycle_count := s2.cycle_count + 1 }

/-- Memory splice used by `memory::load_data` (a bounds-checked
`memcpy` into the buffer). -/
def load_data_splice (mem : List Nat) (addr : Nat) (data : List Nat) : List Nat :=
  mem.take addr ++ data ++ mem.drop (addr + data.length)

/-- From `vm::load_program` in `vm.hpp`: clear memory, copy the code
section to address 0 and the data section right after it, set PC to the
entry offset and SP to memory size minus 4 (uint32 cast of a size_t
subtraction), mark the VM running and reset the counters.  `none`
models the `std::out_of_range` escape when the program does not fit. -/
def vm.load_program (obj : assembler.object_file) (s : vm_state) : Option vm_state :=
  let M := s.mem.length
  if obj.code.length ≤ M then
    let mem1 := load_data_splice (List.replicate M 0) 0 obj.code
    if obj.code.length + obj.data.length ≤ M then
      let mem2 := load_data_splice mem1 obj.code.length obj.data
      some
        { regs := fun j =>
            if j = 0x24 then (2 ^ 64 + M - 4) % 2 ^ 64 % 2 ^ 32
            else if j = 0x20 then obj.entry_offset
            else s.regs j,
          exec := .running,
          mem := mem2,
          instruction_count := 0,
          cycle_count := 0 }
    else none
  else none

end emu

end irre

namespace irre

namespace emu

/-- Device callback used in the concrete VM scenarios: no handler
installed (`vm_state::device_access` returns 0). -/
def dev0 : Nat → Nat → Nat → Nat := fun _ _ _ => 0

/-- Register bank holding 0xFFFFFFFF in r17 and zero elsewhere. -/
def regs_wrap : Nat → Nat := fun j => if j = 17 then 0xFFFFFFFF else 0

/-- 16-byte machine whose first word encodes `ldw r0 r17 0` and whose
r17 holds 0xFFFFFFFF, so the load's effective address is 0xFFFFFFFF. -/
def state_wrap : vm_state :=
  { regs := regs_wrap, exec := .running,
    mem := assembler.encode_bytes (.inst_op_reg_reg_imm8 0x0d 0 17 0) ++ List.replicate 12 0,
    instruction_count := 0, cycle_count := 0 }

/-- Same machine but with r17 = 256: an ordinary out-of-range address. -/
def regs_oob : Nat → Nat := fun j => if j = 17 then 256 else 0

def state_oob : vm_state :=
  { regs := regs_oob, exec := .running,
    mem := assembler.encode_bytes (.inst_op_reg_reg_imm8 0x0d 0 17 0) ++ List.replicate 12 0,
    instruction_count := 0, cycle_count := 0 }

/-- C5: the claim fails on the code.  Executing `ldw r0 r17 0` with
r17 = 0xFFFFFFFF on a 16-byte memory does NOT raise
`invalid_memory_access`: the bounds comparison `addr + 4 > size` wraps
modulo 2^32 (0xFFFFFFFF + 4 = 3), the guard passes, and the unchecked
`data_[addr]` access is undefined behavior (`.ub`).  For an ordinary
out-of-range address (r17 = 256) the claim's behavior does hold: the
step enters the error state and neither registers nor memory change. -/
theorem memory_bounds_check_wraps :
    vm.step dev0 state_wrap = .ub ∧
    vm.step dev0 state_oob =
      .next { regs := regs_oob, exec := .error,
              mem := assembler.encode_bytes (.inst_op_reg_reg_imm8 0x0d 0 17 0) ++
                List.replicate 12 0,
              instruction_count := 1, cycle_count := 1 } :=
  ⟨rfl, rfl⟩

end emu

end irre

namespace irre

namespace emu

theorem getD_append_of_lt {l₁ l₂ : List Nat} {i : Nat} (h : i < l₁.length) :
    (l₁ ++ l₂).getD i 0 = l₁.getD i 0 := by
  simp [List.getD_eq_getElem?_getD, List.getElem?_append_left h]

theorem getD_append_of_ge {l₁ l₂ : List Nat} {i : Nat} (h : l₁.length ≤ i) :
    (l₁ ++ l₂).getD i 0 = l₂.getD (i - l₁.length) 0 := by
  simp [List.getD_eq_getElem?_getD, List.getElem?_append_right h]

theorem getD_replicate_zero (n i : Nat) : (List.replicate n (0 : Nat)).getD i 0 = 0 := by
  rw [List.getD_eq_getElem?_getD, List.getElem?_replicate]
  split <;> rfl

theorem drop_replicate_zero (m n : Nat) :
    (List.replicate n (0 : Nat)).drop m = List.replicate (n - m) 0 := by
  induction m generalizing n with
  | zero => simp
  | succ m ih =>
      cases n with
      | zero => simp
      | succ n => simp [List.replicate_succ, ih]

/-- Helper for C10: the loaded memory image is the code bytes, then the
data bytes, then zeros. -/
theorem load_program_mem_eq (code data : List Nat) (M : Nat)
    (hfit : code.length + data.length ≤ M) :
    load_data_splice (load_data_splice (List.replicate M 0) 0 code) code.length data =
      code ++ data ++ List.replicate (M - code.length - data.length) 0 := by
  have hm1 : load_data_splice (List.replicate M 0) 0 code =
      code ++ List.replicate (M - code.length) 0 := by
    simp [load_data_splice, drop_replicate_zero]
  rw [hm1]
  have hsplit : code ++ List.replicate (M - code.length) 0 =
      (code ++ (List.replicate (M - code.length) 0).take data.length) ++
        (List.replicate (M - code.length) 0).drop data.length := by
    rw [List.append_assoc, List.take_append_drop]
  unfold load_data_splice
  rw [List.take_left' (by rfl)]
  rw [hsplit, List.drop_left' (by simp; omega)]
  rw [drop_replicate_zero]

/-- C10: after a successful `load_program`, the code occupies memory
from address 0, the data follows immediately, all remaining bytes are
zero, PC is the entry offset, SP is memory size minus 4, the VM is
running with zeroed counters, and every register other than PC and SP
keeps its previous value (the register file is not cleared). -/
theorem load_program_postcondition (obj : assembler.object_file) (s : vm_state)
    (hM4 : 4 ≤ s.mem.length) (hM : s.mem.length ≤ 2 ^ 32)
    (hfit : obj.code.length + obj.data.length ≤ s.mem.length) :
    ∃ s2, vm.load_program obj s = some s2 ∧
      s2.mem.length = s.mem.length ∧
      (∀ i, i < obj.code.length → s2.mem.getD i 0 = obj.code.getD i 0) ∧
      (∀ i, i < obj.data.length →
        s2.mem.getD (obj.code.length + i) 0 = obj.data.getD i 0) ∧
      (∀ i, obj.code.length + obj.data.length ≤ i → s2.mem.getD i 0 = 0) ∧
      s2.regs 0x20 = obj.entry_offset ∧
      s2.regs 0x24 = s.mem.length - 4 ∧
      s2.exec = .running ∧
      s2.instruction_count = 0 ∧ s2.cycle_count = 0 ∧
      (∀ r, r ≠ 0x20 → r ≠ 0x24 → s2.regs r = s.regs r) := by
  have hc : obj.code.length ≤ s.mem.length := by omega
  simp only [vm.load_program, if_pos hc, if_pos hfit]
  rw [load_program_mem_eq obj.code obj.data s.mem.length hfit]
  refine ⟨_, rfl, ?_, ?_, ?_, ?_, by simp, ?_, rfl, rfl, rfl, ?_⟩
  · simp
    omega
  · intro i hi
    rw [List.append_assoc, getD_append_of_lt hi]
  · intro i hi
    rw [List.append_assoc, getD_append_of_ge (by omega),
      show obj.code.length + i - obj.code.length = i from by omega,
      getD_append_of_lt hi]
  · intro i hi
    rw [List.append_assoc, getD_append_of_ge (by omega),
      getD_append_of_ge (by omega), getD_replicate_zero]
  · show (2 ^ 64 + s.mem.length - 4) % 2 ^ 64 % 2 ^ 32 = s.mem.length - 4
    omega
  · intro r h20 h24
    simp [h20, h24]

/-- Concrete VM used by the C10 witness: 8 bytes of memory, all 37
registers holding 7, halted, nonzero counters. -/
def demo_vm : vm_state :=
  { regs := fun _ => 7, exec := .halted, mem := List.replicate 8 0,
    instruction_count := 3, cycle_count := 5 }

/-- C10 witness: loading a 4-byte-code, 1-byte-data object into the
8-byte demo VM sets SP to 4, PC to the entry offset 0, leaves r5 at its
old value 7, and runs. -/
theorem load_program_postcondition_witness :
    ∃ s2, vm.load_program ⟨0, [1, 2, 3, 4], [5]⟩ demo_vm = some s2 ∧
      s2.regs 0x24 = 4 ∧ s2.regs 0x20 = 0 ∧ s2.regs 5 = 7 ∧ s2.exec = .running := by
  obtain ⟨s2, h1, _, _, _, _, hpc, hsp, hex, _, _, hkeep⟩ :=
    load_program_postcondition ⟨0, [1, 2, 3, 4], [5]⟩ demo_vm (by decide) (by decide)
      (by decide)
  exact ⟨s2, h1, hsp, hpc, hkeep 5 (by decide) (by decide), hex⟩

end emu

end irre

namespace irre

namespace emu

theorem read_write_self (s : vm_state) (i v : Nat) : (s.write i v).read i = v % 2 ^ 32 := by
  simp [vm_state.write, vm_state.read]

theorem read_write_other (s : vm_state) (i j v : Nat) (h : j ≠ i) :
    (s.write i v).read j = s.read j := by
  simp [vm_state.write, vm_state.read, h]

/-- The PC value an instruction writes during dispatch, if any: the
spec-level companion of C2.  `jmp`, `jmi`, `cal`, `ret` and taken
`bve`/`bvn` write their target; any instruction whose destination
register field names PC (0x20) writes its result there; everything
else leaves PC alone.  Values are the raw written words (the register
file truncates them to uint32 on readback). -/
def pc_written (dev : Nat → Nat → Nat → Nat) : Instruction → vm_state → Option Nat
  | .inst_op op, s => if op = 0x2b then some (s.read 0x21) else none
  | .inst_op_reg op a, s =>
      if op = 0x21 then some (s.read a)
      else if op = 0x2a then
        some (if a = 0x21 then (s.read 0x20 + 4) % 2 ^ 32 else s.read a)
      else none
  | .inst_op_imm24 op addr, _ => if op = 0x20 then some addr else none
  | .inst_op_reg_imm16 op a imm, s =>
      if op = 0x0b then (if a = 0x20 then some imm else none)
      else if op = 0x41 then
        (if a = 0x20 then some (s.read a % 2 ^ 16 + imm % 2 ^ 16 * 2 ^ 16) else none)
      else none
  | .inst_op_reg_reg op a b, s =>
      if op = 0x0c then (if a = 0x20 then some (s.read b) else none)
      else if op = 0x06 then (if a = 0x20 then some (2 ^ 32 - 1 - s.read b) else none)
      else if op = 0x42 then
        (if a = 0x20 then
          some (if s.read b % 2 ^ 16 ≥ 2 ^ 15 then s.read b ||| 0xFFFF0000
                else s.read b % 2 ^ 16)
        else none)
      else none
  | .inst_op_reg_reg_imm8 op a b offset, s =>
      if op = 0x0d then
        (if a = 0x20 then
          match memory.read_word s.mem (eff_addr (s.read b) offset) with
          | .val v => some v
          | _ => none
        else none)
      else if op = 0x0e then none
      else if op = 0x0f then
        (if a = 0x20 then
          match memory.read_byte s.mem (eff_addr (s.read b) offset) with
          | .val v => some v
          | _ => none
        else none)
      else if op = 0x10 then none
      else if op = 0x24 then (if s.read b = offset then some (s.read a) else none)
      else if op = 0x25 then (if s.read b ≠ offset then some (s.read a) else none)
      else if op = 0x43 then
        (if a = 0x20 then some (if s.read b = offset then 1 else 0) else none)
      else none
  | .inst_op_reg_imm8x2 op a v0 v1, s =>
      if op = 0x40 then
        (if a = 0x20 then some ((s.read a + v0 % 256 * 2 ^ (v1 % 256)) % 2 ^ 32) else none)
      else none
  | .inst_op_reg_reg_reg op a b c, s =>
      if op = 0x01 then (if a = 0x20 then some ((s.read b + s.read c) % 2 ^ 32) else none)
      else if op = 0x02 then
        (if a = 0x20 then some ((s.read b + 2 ^ 32 - s.read c) % 2 ^ 32) else none)
      else if op = 0x30 then (if a = 0x20 then some (s.read b * s.read c % 2 ^ 32) else none)
      else if op = 0x31 then
        (if a = 0x20 ∧ s.read c ≠ 0 then some (s.read b / s.read c) else none)
      else if op = 0x32 then
        (if a = 0x20 ∧ s.read c ≠ 0 then some (s.read b % s.read c) else none)
      else if op = 0x03 then (if a = 0x20 then some (s.read b &&& s.read c) else none)
      else if op = 0x04 then (if a = 0x20 then some (s.read b ||| s.read c) else none)
      else if op = 0x05 then (if a = 0x20 then some (s.read b ^^^ s.read c) else none)
      else if op = 0x07 then
        (if a = 0x20 ∧ ¬(to_signed (s.read c) < -32 ∨ to_signed (s.read c) > 32) then
          some (if to_signed (s.read c) ≥ 0 then s.read b * 2 ^ (s.read c) % 2 ^ 32
                else s.read b / 2 ^ (of_signed (-to_signed (s.read c))))
        else none)
      else if op = 0x08 then
        (if a = 0x20 ∧ ¬(to_signed (s.read c) < -32 ∨ to_signed (s.read c) > 32) then
          some (if to_signed (s.read c) ≥ 0 then of_signed (to_signed (s.read b) * 2 ^ (s.read c))
                else of_signed ((to_signed (s.read b)).fdiv
                  (2 ^ (of_signed (-to_signed (s.read c))))))
        else none)
      else if op = 0x09 then
        (if a = 0x20 then
          some (if s.read b < s.read c then 0xFFFFFFFF
                else if s.read b > s.read c then 1 else 0)
        else none)
      else if op = 0x0a then
        (if a = 0x20 then
          some (if to_signed (s.read b) < to_signed (s.read c) then 0xFFFFFFFF
                else if to_signed (s.read b) > to_signed (s.read c) then 1 else 0)
        else none)
      else if op = 0xfd then
        (if c = 0x20 then some (dev (s.read a) (s.read b) (s.read c)) else none)
      else none

end emu

end irre

namespace irre

namespace emu

set_option maxHeartbeats 1600000 in
/-- Helper for C2: dispatching an instruction leaves PC at the value
`pc_written` predicts (or unchanged when it predicts none), halts
exactly for `hlt`, and otherwise preserves the execution state when it
does not fault. -/
theorem exec_visit_pc (dev : Nat → Nat → Nat → Nat) (inst : Instruction) (s s1 : vm_state)
    (h : exec_visit dev inst s = .next s1) (hne : s1.exec ≠ .error) :
    (match pc_written dev inst s with
      | some v => s1.read 0x20 = v % 2 ^ 32
      | none => s1.read 0x20 = s.read 0x20) ∧
    (inst = .inst_op 0xff → s1.exec = .halted) ∧
    (inst ≠ .inst_op 0xff → s1.exec = s.exec) := by
  cases inst with
  | inst_op op =>
      simp only [exec_visit] at h
      split_ifs at h with h1 h2 h3
      · subst h1
        injection h with h
        subst h
        exact ⟨by simp [pc_written], by simp, fun _ => rfl⟩
      · subst h2
        injection h with h
        subst h
        refine ⟨?_, by simp, fun _ => rfl⟩
        simp only [pc_written, reduceIte]
        rw [read_write_other _ _ _ _ (by decide), read_write_self]
      · subst h3
        injection h with h
        subst h
        exact ⟨by simp [pc_written, vm_state.read], fun _ => rfl, fun hn => absurd rfl hn⟩
      · injection h with h
        subst h
        exact absurd rfl hne
  | inst_op_reg op a =>
      simp only [exec_visit] at h
      split_ifs at h with h1 h2
      · subst h1
        injection h with h
        subst h
        refine ⟨?_, by simp, fun _ => rfl⟩
        simp only [pc_written, reduceIte]
        rw [read_write_self]
      · subst h2
        injection h with h
        subst h
        refine ⟨?_, by simp, fun _ => rfl⟩
        by_cases ha : a = 0x21
        · subst ha
          rw [read_write_self, read_write_self]
          simp [pc_written]
        · rw [read_write_self, read_write_other _ _ _ _ (fun hh => ha hh)]
          simp [pc_written, ha]
      · injection h with h
        subst h
        exact absurd rfl hne
  | inst_op_imm24 op addr =>
      simp only [exec_visit] at h
      split_ifs at h with h1 h2
      · subst h1
        injection h with h
        subst h
        refine ⟨?_, by simp, fun _ => rfl⟩
        simp only [pc_written, reduceIte]
        rw [read_write_self]
      · subst h2
        injection h with h
        subst h
        exact ⟨by simp [pc_written, vm_state.read], by simp, fun _ => rfl⟩
      · injection h with h
        subst h
        exact absurd rfl hne
  | inst_op_reg_imm16 op a imm =>
      simp only [exec_visit] at h
      split_ifs at h with h1 h2
      · subst h1
        injection h with h
        subst h
        refine ⟨?_, by simp, fun _ => rfl⟩
        by_cases ha : a = 0x20
        · subst ha
          rw [read_write_self]
          simp [pc_written]
        · rw [read_write_other _ _ _ _ (fun hh => ha hh.symm)]
          simp [pc_written, ha]
      · subst h2
        injection h with h
        subst h
        refine ⟨?_, by simp, fun _ => rfl⟩
        by_cases ha : a = 0x20
        · subst ha
          rw [read_write_self]
          simp [pc_written]
        · rw [read_write_other _ _ _ _ (fun hh => ha hh.symm)]
          simp [pc_written, ha]
      · injection h with h
        subst h
        exact absurd rfl hne
  | inst_op_reg_reg op a b =>
      simp only [exec_visit] at h
      split_ifs at h with h1 h2 h3 h4
      · subst h1
        injection h with h
        subst h
        refine ⟨?_, by simp, fun _ => rfl⟩
        by_cases ha : a = 0x20
        · subst ha
          rw [read_write_self]
          simp [pc_written]
        · rw [read_write_other _ _ _ _ (fun hh => ha hh.symm)]
          simp [pc_written, ha]
      · subst h2
        injection h with h
        subst h
        refine ⟨?_, by simp, fun _ => rfl⟩
        by_cases ha : a = 0x20
        · subst ha
          rw [read_write_self]
          simp [pc_written]
        · rw [read_write_other _ _ _ _ (fun hh => ha hh.symm)]
          simp [pc_written, ha]
      · subst h3
        injection h with h
        subst h
        refine ⟨?_, by simp, fun _ => rfl⟩
        by_cases ha : a = 0x20
        · subst ha
          rw [read_write_self]
          simp only [pc_written, reduceIte]
          rw [if_pos h4]
          simp
        · rw [read_write_other _ _ _ _ (fun hh => ha hh.symm)]
          simp [pc_written, ha]
      · subst h3
        injection h with h
        subst h
        refine ⟨?_, by simp, fun _ => rfl⟩
        by_cases ha : a = 0x20
        · subst ha
          rw [read_write_self]
          simp only [pc_written, reduceIte]
          rw [if_neg h4]
          simp
        · rw [read_write_other _ _ _ _ (fun hh => ha hh.symm)]
          simp [pc_written, ha]
      · injection h with h
        subst h
        exact absurd rfl hne
  | inst_op_reg_reg_imm8 op a b offset =>
      simp only [exec_visit] at h
      split_ifs at h with h1 h2 h3 h4 h5 hb1 h6 hb2 h7 hb3
      · subst h1
        cases hm : memory.read_word s.mem (eff_addr (s.read b) offset) with
        | val v =>
            rw [hm] at h
            simp only at h
            injection h with h
            subst h
            refine ⟨?_, by simp, fun _ => rfl⟩
            by_cases ha : a = 0x20
            · subst ha
              rw [read_write_self]
              simp only [pc_written, reduceIte]
              rw [hm]
            · rw [read_write_other _ _ _ _ (fun hh => ha hh.symm)]
              simp [pc_written, ha]
        | oob =>
            rw [hm] at h
            simp only at h
            injection h with h
            subst h
            exact absurd rfl hne
        | ub =>
            rw [hm] at h
            exact absurd h (by simp)
      · subst h2
        cases hm : memory.write_word s.mem (eff_addr (s.read b) offset) (s.read a) with
        | val m2 =>
            rw [hm] at h
            simp only at h
            injection h with h
            subst h
            exact ⟨by simp [pc_written, vm_state.read], by simp, fun _ => rfl⟩
        | oob =>
            rw [hm] at h
            simp only at h
            injection h with h
            subst h
            exact absurd rfl hne
        | ub =>
            rw [hm] at h
            exact absurd h (by simp)
      · subst h3
        cases hm : memory.read_byte s.mem (eff_addr (s.read b) offset) with
        | val v =>
            rw [hm] at h
            simp only at h
            injection h with h
            subst h
            refine ⟨?_, by simp, fun _ => rfl⟩
            by_cases ha : a = 0x20
            · subst ha
              rw [read_write_self]
              simp only [pc_written, reduceIte]
              rw [hm]
              simp
            · rw [read_write_other _ _ _ _ (fun hh => ha hh.symm)]
              simp [pc_written, ha]
        | oob =>
            rw [hm] at h
            simp only at h
            injection h with h
            subst h
            exact absurd rfl hne
        | ub =>
            rw [hm] at h
            exact absurd h (by simp)
      · subst h4
        cases hm : memory.write_byte s.mem (eff_addr (s.read b) offset) (s.read a % 256) with
        | val m2 =>
            rw [hm] at h
            simp only at h
            injection h with h
            subst h
            exact ⟨by simp [pc_written, vm_state.read], by simp, fun _ => rfl⟩
        | oob =>
            rw [hm] at h
            simp only at h
            injection h with h
            subst h
            exact absurd rfl hne
        | ub =>
            rw [hm] at h
            exact absurd h (by simp)
      · subst h5
        injection h with h
        subst h
        refine ⟨?_, by simp, fun _ => rfl⟩
        simp only [pc_written, reduceIte]
        rw [if_pos hb1, read_write_self]
        simp
      · subst h5
        injection h with h
        subst h
        refine ⟨?_, by simp, fun _ => rfl⟩
        simp only [pc_written, reduceIte]
        rw [if_neg hb1]
        simp
      · subst h6
        injection h with h
        subst h
        refine ⟨?_, by simp, fun _ => rfl⟩
        simp only [pc_written, reduceIte]
        rw [if_pos hb2, read_write_self]
        simp
      · subst h6
        injection h with h
        subst h
        refine ⟨?_, by simp, fun _ => rfl⟩
        simp only [pc_written, reduceIte]
        rw [if_neg hb2]
        simp
      · subst h7
        injection h with h
        subst h
        refine ⟨?_, by simp, fun _ => rfl⟩
        by_cases ha : a = 0x20
        · subst ha
          rw [read_write_self]
          simp only [pc_written, Nat.reduceEqDiff, reduceIte]
          rw [if_pos hb3]
        · rw [read_write_other _ _ _ _ (fun hh => ha hh.symm)]
          simp [pc_written, ha]
      · subst h7
        injection h with h
        subst h
        refine ⟨?_, by simp, fun _ => rfl⟩
        by_cases ha : a = 0x20
        · subst ha
          rw [read_write_self]
          simp only [pc_written, Nat.reduceEqDiff, reduceIte]
          rw [if_neg hb3]
        · rw [read_write_other _ _ _ _ (fun hh => ha hh.symm)]
          simp [pc_written, ha]
      · injection h with h
        subst h
        exact absurd rfl hne
  | inst_op_reg_imm8x2 op a v0 v1 =>
      simp only [exec_visit] at h
      split_ifs at h with h1
      · subst h1
        injection h with h
        subst h
        refine ⟨?_, by simp, fun _ => rfl⟩
        by_cases ha : a = 0x20
        · subst ha
          rw [read_write_self]
          simp [pc_written]
        · rw [read_write_other _ _ _ _ (fun hh => ha hh.symm)]
          simp [pc_written, ha]
      · injection h with h
        subst h
        exact absurd rfl hne
  | inst_op_reg_reg_reg op a b c =>
      by_cases h1 : op = 0x01
      · subst h1
        simp only [exec_visit, Nat.reduceEqDiff, reduceIte] at h
        injection h with h
        subst h
        refine ⟨?_, by simp, fun _ => rfl⟩
        by_cases ha : a = 0x20
        · subst ha
          simp only [pc_written, Nat.reduceEqDiff, reduceIte]
          rw [read_write_self]
        · rw [read_write_other _ _ _ _ (fun hh => ha hh.symm)]
          simp [pc_written, ha]
      by_cases h2 : op = 0x02
      · subst h2
        simp only [exec_visit, Nat.reduceEqDiff, reduceIte] at h
        injection h with h
        subst h
        refine ⟨?_, by simp, fun _ => rfl⟩
        by_cases ha : a = 0x20
        · subst ha
          simp only [pc_written, Nat.reduceEqDiff, reduceIte]
          rw [read_write_self]
        · rw [read_write_other _ _ _ _ (fun hh => ha hh.symm)]
          simp [pc_written, ha]
      by_cases h3 : op = 0x30
      · subst h3
        simp only [exec_visit, Nat.reduceEqDiff, reduceIte] at h
        injection h with h
        subst h
        refine ⟨?_, by simp, fun _ => rfl⟩
        by_cases ha : a = 0x20
        · subst ha
          simp only [pc_written, Nat.reduceEqDiff, reduceIte]
          rw [read_write_self]
        · rw [read_write_other _ _ _ _ (fun hh => ha hh.symm)]
          simp [pc_written, ha]
      by_cases h4 : op = 0x31
      · subst h4
        simp only [exec_visit, Nat.reduceEqDiff, reduceIte] at h
        by_cases hz : s.read c = 0
        · rw [if_pos hz] at h
          injection h with h
          subst h
          exact absurd rfl hne
        · rw [if_neg hz] at h
          injection h with h
          subst h
          refine ⟨?_, by simp, fun _ => rfl⟩
          by_cases ha : a = 0x20
          · subst ha
            simp only [pc_written, Nat.reduceEqDiff, reduceIte, true_and]
            rw [if_pos hz, read_write_self]
          · rw [read_write_other _ _ _ _ (fun hh => ha hh.symm)]
            simp [pc_written, ha]
      by_cases h5 : op = 0x32
      · subst h5
        simp only [exec_visit, Nat.reduceEqDiff, reduceIte] at h
        by_cases hz : s.read c = 0
        · rw [if_pos hz] at h
          injection h with h
          subst h
          exact absurd rfl hne
        · rw [if_neg hz] at h
          injection h with h
          subst h
          refine ⟨?_, by simp, fun _ => rfl⟩
          by_cases ha : a = 0x20
          · subst ha
            simp only [pc_written, Nat.reduceEqDiff, reduceIte, true_and]
            rw [if_pos hz, read_write_self]
          · rw [read_write_other _ _ _ _ (fun hh => ha hh.symm)]
            simp [pc_written, ha]
      by_cases h6 : op = 0x03
      · subst h6
        simp only [exec_visit, Nat.reduceEqDiff, reduceIte] at h
        injection h with h
        subst h
        refine ⟨?_, by simp, fun _ => rfl⟩
        by_cases ha : a = 0x20
        · subst ha
          simp only [pc_written, Nat.reduceEqDiff, reduceIte]
          rw [read_write_self]
        · rw [read_write_other _ _ _ _ (fun hh => ha hh.symm)]
          simp [pc_written, ha]
      by_cases h7 : op = 0x04
      · subst h7
        simp only [exec_visit, Nat.reduceEqDiff, reduceIte] at h
        injection h with h
        subst h
        refine ⟨?_, by simp, fun _ => rfl⟩
        by_cases ha : a = 0x20
        · subst ha
          simp only [pc_written, Nat.reduceEqDiff, reduceIte]
          rw [read_write_self]
        · rw [read_write_other _ _ _ _ (fun hh => ha hh.symm)]
          simp [pc_written, ha]
      by_cases h8 : op = 0x05
      · subst h8
        simp only [exec_visit, Nat.reduceEqDiff, reduceIte] at h
        injection h with h
        subst h
        refine ⟨?_, by simp, fun _ => rfl⟩
        by_cases ha : a = 0x20
        · subst ha
          simp only [pc_written, Nat.reduceEqDiff, reduceIte]
          rw [read_write_self]
        · rw [read_write_other _ _ _ _ (fun hh => ha hh.symm)]
          simp [pc_written, ha]
      by_cases h9 : op = 0x07
      · subst h9
        simp only [exec_visit, Nat.reduceEqDiff, reduceIte] at h
        by_cases hr : to_signed (s.read c) < -32 ∨ to_signed (s.read c) > 32
        · rw [if_pos hr] at h
          injection h with h
          subst h
          exact absurd rfl hne
        · rw [if_neg hr] at h
          by_cases hs : to_signed (s.read c) ≥ 0
          · rw [if_pos hs] at h
            injection h with h
            subst h
            refine ⟨?_, by simp, fun _ => rfl⟩
            by_cases ha : a = 0x20
            · subst ha
              simp only [pc_written, Nat.reduceEqDiff, reduceIte, true_and]
              rw [if_pos hr, if_pos hs, read_write_self]
            · rw [read_write_other _ _ _ _ (fun hh => ha hh.symm)]
              simp [pc_written, ha]
          · rw [if_neg hs] at h
            injection h with h
            subst h
            refine ⟨?_, by simp, fun _ => rfl⟩
            by_cases ha : a = 0x20
            · subst ha
              simp only [pc_written, Nat.reduceEqDiff, reduceIte, true_and]
              rw [if_pos hr, if_neg hs, read_write_self]
            · rw [read_write_other _ _ _ _ (fun hh => ha hh.symm)]
              simp [pc_written, ha]
      by_cases h10 : op = 0x08
      · subst h10
        simp only [exec_visit, Nat.reduceEqDiff, reduceIte] at h
        by_cases hr : to_signed (s.read c) < -32 ∨ to_signed (s.read c) > 32
        · rw [if_pos hr] at h
          injection h with h
          subst h
          exact absurd rfl hne
        · rw [if_neg hr] at h
          by_cases hs : to_signed (s.read c) ≥ 0
          · rw [if_pos hs] at h
            injection h with h
            subst h
            refine ⟨?_, by simp, fun _ => rfl⟩
            by_cases ha : a = 0x20
            · subst ha
              simp only [pc_written, Nat.reduceEqDiff, reduceIte, true_and]
              rw [if_pos hr, if_pos hs, read_write_self]
            · rw [read_write_other _ _ _ _ (fun hh => ha hh.symm)]
              simp [pc_written, ha]
          · rw [if_neg hs] at h
            injection h with h
            subst h
            refine ⟨?_, by simp, fun _ => rfl⟩
            by_cases ha : a = 0x20
            · subst ha
              simp only [pc_written, Nat.reduceEqDiff, reduceIte, true_and]
              rw [if_pos hr, if_neg hs, read_write_self]
            · rw [read_write_other _ _ _ _ (fun hh => ha hh.symm)]
              simp [pc_written, ha]
      by_cases h11 : op = 0x09
      · subst h11
        simp only [exec_visit, Nat.reduceEqDiff, reduceIte] at h
        by_cases ht1 : s.read b < s.read c
        · rw [if_pos ht1] at h
          injection h with h
          subst h
          refine ⟨?_, by simp, fun _ => rfl⟩
          by_cases ha : a = 0x20
          · subst ha
            simp only [pc_written, Nat.reduceEqDiff, reduceIte]
            rw [if_pos ht1, read_write_self]
          · rw [read_write_other _ _ _ _ (fun hh => ha hh.symm)]
            simp [pc_written, ha]
        · rw [if_neg ht1] at h
          by_cases ht2 : s.read b > s.read c
          · rw [if_pos ht2] at h
            injection h with h
            subst h
            refine ⟨?_, by simp, fun _ => rfl⟩
            by_cases ha : a = 0x20
            · subst ha
              simp only [pc_written, Nat.reduceEqDiff, reduceIte]
              rw [if_neg ht1, if_pos ht2, read_write_self]
            · rw [read_write_other _ _ _ _ (fun hh => ha hh.symm)]
              simp [pc_written, ha]
          · rw [if_neg ht2] at h
            injection h with h
            subst h
            refine ⟨?_, by simp, fun _ => rfl⟩
            by_cases ha : a = 0x20
            · subst ha
              simp only [pc_written, Nat.reduceEqDiff, reduceIte]
              rw [if_neg ht1, if_neg ht2, read_write_self]
            · rw [read_write_other _ _ _ _ (fun hh => ha hh.symm)]
              simp [pc_written, ha]
      by_cases h12 : op = 0x0a
      · subst h12
        simp only [exec_visit, Nat.reduceEqDiff, reduceIte] at h
        by_cases ht3 : to_signed (s.read b) < to_signed (s.read c)
        · rw [if_pos ht3] at h
          injection h with h
          subst h
          refine ⟨?_, by simp, fun _ => rfl⟩
          by_cases ha : a = 0x20
          · subst ha
            simp only [pc_written, Nat.reduceEqDiff, reduceIte]
            rw [if_pos ht3, read_write_self]
          · rw [read_write_other _ _ _ _ (fun hh => ha hh.symm)]
            simp [pc_written, ha]
        · rw [if_neg ht3] at h
          by_cases ht4 : to_signed (s.read b) > to_signed (s.read c)
          · rw [if_pos ht4] at h
            injection h with h
            subst h
            refine ⟨?_, by simp, fun _ => rfl⟩
            by_cases ha : a = 0x20
            · subst ha
              simp only [pc_written, Nat.reduceEqDiff, reduceIte]
              rw [if_neg ht3, if_pos ht4, read_write_self]
            · rw [read_write_other _ _ _ _ (fun hh => ha hh.symm)]
              simp [pc_written, ha]
          · rw [if_neg ht4] at h
            injection h with h
            subst h
            refine ⟨?_, by simp, fun _ => rfl⟩
            by_cases ha : a = 0x20
            · subst ha
              simp only [pc_written, Nat.reduceEqDiff, reduceIte]
              rw [if_neg ht3, if_neg ht4, read_write_self]
            · rw [read_write_other _ _ _ _ (fun hh => ha hh.symm)]
              simp [pc_written, ha]
      by_cases h13 : op = 0xfd
      · subst h13
        simp only [exec_visit, Nat.reduceEqDiff, reduceIte] at h
        injection h with h
        subst h
        refine ⟨?_, by simp, fun _ => rfl⟩
        by_cases hcc : c = 0x20
        · subst hcc
          simp only [pc_written, Nat.reduceEqDiff, reduceIte]
          rw [read_write_self]
        · rw [read_write_other _ _ _ _ (fun hh => hcc hh.symm)]
          simp [pc_written, hcc]
      simp only [exec_visit, h1, h2, h3, h4, h5, h6, h7, h8, h9, h10, h11, h12, h13,
        if_false, ite_false] at h
      injection h with h
      subst h
      exact absurd rfl hne

end emu

end irre

namespace irre

namespace emu

set_option maxHeartbeats 1000000 in
/-- C2: PC advance rule.  For any VM step taken from a running state
that fetches and decodes an instruction and does not fault, the new PC
equals either the old PC + 4 (in particular whenever the instruction
did not itself write PC, and also in the corner case where it wrote
PC's own old value back, since detection compares PC before and after
dispatch), or a value the instruction itself wrote to PC (`pc_written`
collects exactly the PC writes of `ret`, `jmp`, `cal`, `jmi`, taken
`bve`/`bvn`, and any other instruction whose destination register is
PC); `hlt` leaves the old PC. -/
theorem pc_advance_rule (dev : Nat → Nat → Nat → Nat) (s s' : vm_state) (w : Nat)
    (inst : Instruction)
    (hfetch : memory.read_word s.mem (s.read 0x20) = .val w)
    (hdec : decode w = .ok inst)
    (hstep : vm.step dev s = .next s')
    (hrun : s.exec = .running)
    (hnofault : s'.exec ≠ .error) :
    (inst = .inst_op 0xff → s'.read 0x20 = s.read 0x20) ∧
    (inst ≠ .inst_op 0xff →
      s'.read 0x20 = (s.read 0x20 + 4) % 2 ^ 32 ∨
      ∃ v, pc_written dev inst s = some v ∧ s'.read 0x20 = v % 2 ^ 32) := by
  simp only [vm.step] at hstep
  rw [hrun] at hstep
  rw [if_neg (show ¬(execution_state.running ≠ execution_state.running) from
    fun hco => hco rfl)] at hstep
  by_cases halign : s.read 0x20 % 4 ≠ 0
  · rw [if_pos halign] at hstep
    injection hstep with hh
    subst hh
    exact absurd rfl hnofault
  · rw [if_neg halign] at hstep
    by_cases hvalid : ¬memory.is_valid_range s.mem (s.read 0x20) 4
    · rw [if_pos hvalid] at hstep
      injection hstep with hh
      subst hh
      exact absurd rfl hnofault
    · rw [if_neg hvalid] at hstep
      simp only [hfetch, hdec] at hstep
      cases hv : exec_visit dev inst s with
      | ub =>
          rw [hv] at hstep
          exact absurd hstep (by simp)
      | next s1 =>
          simp only [hv] at hstep
          by_cases hdet : s1.read 0x20 = s.read 0x20 ∧ s1.exec = .running
          · rw [if_pos hdet] at hstep
            injection hstep with hh
            subst hh
            have hs1ne : s1.exec ≠ .error := hnofault
            have hlem := exec_visit_pc dev inst s s1 hv hs1ne
            refine ⟨fun hi => ?_, fun hi => ?_⟩
            · exact execution_state.noConfusion ((hdet.2).symm.trans (hlem.2.1 hi))
            · left
              show ((s.read 0x20 + 4) % 2 ^ 32) % 2 ^ 32 = (s.read 0x20 + 4) % 2 ^ 32
              omega
          · rw [if_neg hdet] at hstep
            injection hstep with hh
            subst hh
            have hs1ne : s1.exec ≠ .error := hnofault
            have hlem := exec_visit_pc dev inst s s1 hv hs1ne
            refine ⟨fun hi => ?_, fun hi => ?_⟩
            · subst hi
              exact hlem.1
            · have hrun1 : s1.exec = .running := (hlem.2.2 hi).trans hrun
              have hnepc : s1.read 0x20 ≠ s.read 0x20 := fun hEq => hdet ⟨hEq, hrun1⟩
              cases hpw : pc_written dev inst s with
              | none =>
                  have h1 := hlem.1
                  rw [hpw] at h1
                  exact absurd h1 hnepc
              | some v =>
                  have h1 := hlem.1
                  rw [hpw] at h1
                  exact Or.inr ⟨v, rfl, h1⟩

/-- 16-byte machine of zeroed memory (the word at PC decodes as `nop`)
with all registers zero, used to exercise the PC advance rule. -/
def state_nop : vm_state :=
  { regs := fun _ => 0, exec := .running, mem := List.replicate 16 0,
    instruction_count := 0, cycle_count := 0 }

/-- The machine after one step: PC advanced to 4, counters bumped. -/
def state_nop_next : vm_state :=
  { state_nop.write 0x20 ((state_nop.read 0x20 + 4) % 2 ^ 32) with
    instruction_count := 1, cycle_count := 1 }

theorem pc_advance_rule_witness :
    vm.step dev0 state_nop = .next state_nop_next ∧
    ((Instruction.inst_op 0x00 = .inst_op 0xff →
        state_nop_next.read 0x20 = state_nop.read 0x20) ∧
     (Instruction.inst_op 0x00 ≠ .inst_op 0xff →
        state_nop_next.read 0x20 = (state_nop.read 0x20 + 4) % 2 ^ 32 ∨
        ∃ v, pc_written dev0 (.inst_op 0x00) state_nop = some v ∧
          state_nop_next.read 0x20 = v % 2 ^ 32)) :=
  ⟨rfl,
   pc_advance_rule dev0 state_nop state_nop_next 0 (.inst_op 0x00) rfl rfl rfl rfl
     (fun hco => nomatch hco)⟩

end emu

end irre
